import Mathlib

/-!
Moving-average crossover backtester: embedding and verified properties.

Shallow embedding of `src/backtester.cpp` (class `Backtester`) and
`src/ma_strat.cpp` (class `MovingAverageStrategy`).

Modelling conventions
* `double` values are rationals (`ℚ`); NaN and infinities are not represented.
  The first embedding computes with them exactly.  A second embedding of
  `calculateMA`, `calculateMovingAverages` and `runBacktest` (names under
  `Ops.`) takes the four operations of `double` as a parameter `DoubleOps`:
  `exactOps` gives back the first embedding, `binary64Ops` rounds every result
  to the nearest binary64 value, so that rounding and underflow are
  represented.  Statements whose truth depends on rounding are stated over the
  second embedding.
* A division by zero yields `0` here, where the source yields an infinity or
  NaN; the statements below keep to periods `>= 1`, and a quotient whose
  divisor may be zero appears in them only unevaluated, as the expression the
  source computes.
* `std::sqrt` has no rational model; the report carries the radicand instead.
* `std::sort` is the ascending sort (`List.insertionSort`), and the values of
  the random generator are an explicit input.
* Vector sizes are taken to fit in `int`, so an index converts to `int` exactly.
* `std::vector<T>` is `List T`.  A read outside the vector is undefined
  behaviour in the source; here every read is checked and the computation
  yields `none` when a read is out of bounds.
* `int` values are `Int`, `size_t` values are `Nat`.  Where a `size_t`
  subtraction or an `int`-to-`size_t` conversion would wrap, the wrapped value
  lies above every vector size; the embedding says so at each such place.
-/

/-- The read `v[j]` of a vector at an `int` index: a negative index converts to
a `size_t` above every vector size, so the read is out of bounds. -/
def vecAt {α : Type} (v : List α) (j : Int) : Option α :=
  if j < 0 then none else v[j.toNat]?

/-- The read `v[a - b]` with `size_t` operands: when `a < b` the difference
wraps above every vector size, so the read is out of bounds. -/
def vecAtDiff {α : Type} (v : List α) (a b : Nat) : Option α :=
  if b ≤ a then v[a - b]? else none

/-- The indices visited by `for (size_t i = longPeriod; i < size; i++)`: a
negative `longPeriod` converts to a `size_t` above every vector size, so the
loop body never runs. -/
def loopIndices (longPeriod : Int) (size : Nat) : List Nat :=
  if longPeriod < 0 then [] else List.range' longPeriod.toNat (size - longPeriod.toNat)

/-- The two kinds of line the signal loops print. -/
inductive TradeAction where
  | BUY
  | SELL
  deriving DecidableEq, Repr

namespace Backtester

/-- The record `StockData` of `backtester.cpp`. -/
structure StockData where
  date : String
  price : ℚ
  close : ℚ
  high : ℚ
  low : ℚ
  openPrice : ℚ
  volume : Int
  deriving DecidableEq, Repr

/-- `Backtester::calculateMA`: the sentinel `0.0` when `currentIndex < period - 1`,
otherwise the sum of `data[currentIndex - i]` for `i = 0 .. period - 1`, divided
by `period`. -/
def calculateMA (data : List ℚ) (period : Int) (currentIndex : Int) : Option ℚ :=
  if currentIndex < period - 1 then some 0
  else
    ((List.range period.toNat).foldlM
      (fun (sum : ℚ) (i : Nat) => (vecAt data (currentIndex - (i : Int))).map (fun x => sum + x))
      (0 : ℚ)).map (fun sum => sum / (period : ℚ))

/-- `Backtester::calculateMovingAverages`: the closes are copied to `prices`,
then for each index both averages are pushed onto `shortMA` and `longMA`. -/
def calculateMovingAverages (historicalData : List StockData) (shortPeriod longPeriod : Int) :
    Option (List ℚ × List ℚ) :=
  let prices := historicalData.map (fun data => data.close)
  (List.range prices.length).foldlM
    (fun (acc : List ℚ × List ℚ) (i : Nat) =>
      (calculateMA prices shortPeriod (i : Int)).bind fun s =>
      (calculateMA prices longPeriod (i : Int)).bind fun l =>
      some (acc.1 ++ [s], acc.2 ++ [l]))
    ([], [])

/-- One printed trade line, `<date>: BUY at <close>` or `<date>: SELL at <close>`,
together with the loop index that printed it. -/
structure Trade where
  index : Nat
  date : String
  action : TradeAction
  price : ℚ
  deriving DecidableEq, Repr

/-- The local variables of `runBacktest` that the loop updates, and the lines
printed so far. -/
structure LoopState where
  balance : ℚ
  position : Int
  portfolioValue : List ℚ
  returns : List ℚ
  trades : Int
  output : List Trade
  deriving DecidableEq, Repr

/-- The `if / else if` at the head of the loop body of `runBacktest`. -/
def signal (historicalData : List StockData) (shortMA longMA : List ℚ)
    (s : LoopState) (i : Nat) : Option LoopState :=
  shortMA[i]?.bind fun sm =>
  longMA[i]?.bind fun lm =>
  if sm > lm ∧ s.position = 0 then
    historicalData[i]?.bind fun d =>
    some { s with position := 1, trades := s.trades + 1,
                  output := s.output ++ [⟨i, d.date, TradeAction.BUY, d.close⟩] }
  else if sm < lm ∧ s.position = 1 then
    historicalData[i]?.bind fun d =>
    some { s with position := 0, trades := s.trades + 1,
                  output := s.output ++ [⟨i, d.date, TradeAction.SELL, d.close⟩] }
  else some s

/-- The rest of the loop body of `runBacktest`: mark to market, push the value,
and push a daily return when `i > longPeriod`. -/
def markToMarket (historicalData : List StockData) (longPeriod : Int)
    (s : LoopState) (i : Nat) : Option LoopState :=
  (if s.position = 1 then
      historicalData[i]?.bind fun d =>
      (vecAtDiff historicalData i 1).bind fun p =>
      some (s.balance * (d.close / p.close))
    else some s.balance).bind fun currentValue =>
  let portfolioValue := s.portfolioValue ++ [currentValue]
  (if (i : Int) > longPeriod then
      (vecAtDiff portfolioValue portfolioValue.length 2).bind fun prev =>
      some (s.returns ++ [currentValue / prev - 1])
    else some s.returns).bind fun returns =>
  some { s with balance := currentValue, portfolioValue := portfolioValue, returns := returns }

/-- The whole loop body of `runBacktest` at index `i`. -/
def step (historicalData : List StockData) (shortMA longMA : List ℚ) (longPeriod : Int)
    (s : LoopState) (i : Nat) : Option LoopState :=
  (signal historicalData shortMA longMA s i).bind fun s1 =>
  markToMarket historicalData longPeriod s1 i

/-- The constant `initialBalance` of `runBacktest`. -/
def initialBalance : ℚ := 10000

/-- The loop state on entry to the loop of `runBacktest`. -/
def initialState : LoopState :=
  { balance := initialBalance, position := 0, portfolioValue := [], returns := [],
    trades := 0, output := [] }

/-- The state of `runBacktest` after the first `k` iterations of its loop. -/
def stateAfter (historicalData : List StockData) (shortMA longMA : List ℚ) (longPeriod : Int)
    (k : Nat) : Option LoopState :=
  ((loopIndices longPeriod historicalData.length).take k).foldlM
    (step historicalData shortMA longMA longPeriod) initialState

/-- What `runBacktest` reports, with the final loop state.  `variance` is the
argument of the `std::sqrt` of line 188, `volatility / returns.size()`; the
square roots themselves are not rational and are left out. -/
structure Report where
  initialBalance : ℚ
  balance : ℚ
  totalReturn : ℚ
  trades : Int
  avgReturn : ℚ
  variance : ℚ
  buyAndHoldFinalBalance : ℚ
  buyAndHoldReturn : ℚ
  position : Int
  portfolioValue : List ℚ
  returns : List ℚ
  output : List Trade
  deriving DecidableEq, Repr

/-- How a call of `runBacktest` ends: the early return on empty data, an
out-of-bounds read, or the printed report. -/
inductive Outcome where
  | noData
  | outOfBounds
  | done (r : Report)
  deriving DecidableEq, Repr

/-- `Backtester::runBacktest` on the loaded `historicalData`. -/
def runBacktest (historicalData : List StockData) (shortPeriod longPeriod : Int) : Outcome :=
  if historicalData.isEmpty then Outcome.noData
  else
    match calculateMovingAverages historicalData shortPeriod longPeriod with
    | none => Outcome.outOfBounds
    | some (shortMA, longMA) =>
      match historicalData.head?, historicalData.getLast? with
      | some first, some last =>
        let firstPrice := first.close
        let lastPrice := last.close
        let buyAndHoldReturn := ((lastPrice - firstPrice) / firstPrice) * 100
        let buyAndHoldFinalBalance := initialBalance * (lastPrice / firstPrice)
        match (loopIndices longPeriod historicalData.length).foldlM
            (step historicalData shortMA longMA longPeriod) initialState with
        | none => Outcome.outOfBounds
        | some s =>
          let totalReturn := ((s.balance - initialBalance) / initialBalance) * 100
          let avgReturn := s.returns.foldl (fun a r => a + r) 0 / (s.returns.length : ℚ)
          let volatility := s.returns.foldl (fun v r => v + (r - avgReturn) * (r - avgReturn)) 0
          Outcome.done
            { initialBalance := initialBalance, balance := s.balance, totalReturn := totalReturn,
              trades := s.trades, avgReturn := avgReturn,
              variance := volatility / (s.returns.length : ℚ),
              buyAndHoldFinalBalance := buyAndHoldFinalBalance,
              buyAndHoldReturn := buyAndHoldReturn,
              position := s.position, portfolioValue := s.portfolioValue,
              returns := s.returns, output := s.output }
      | _, _ => Outcome.outOfBounds

/-- Line 188 of `backtester.cpp`,
`std::sqrt(volatility / returns.size()) * std::sqrt(252)`, on the radicand the
report carries.  `std::sqrt` has no rational model, so it is a parameter. -/
def volatility (sqrt : ℚ → ℚ) (r : Report) : ℚ :=
  sqrt r.variance * sqrt 252

/-- Line 189 of `backtester.cpp`, `(avgReturn * 252) / volatility`. -/
def sharpeRatio (sqrt : ℚ → ℚ) (r : Report) : ℚ :=
  (r.avgReturn * 252) / volatility sqrt r

/-- A series whose closes are the given prices; the other fields play no part
in `runBacktest`. -/
def seriesOf (closes : List ℚ) : List StockData :=
  closes.map fun c => { date := "", price := c, close := c, high := c, low := c,
                        openPrice := c, volume := 0 }

end Backtester

namespace MovingAverageStrategy

/-- `MovingAverageStrategy::calculateMA`, the same text as the `Backtester` copy. -/
def calculateMA (data : List ℚ) (period : Int) (currentIndex : Int) : Option ℚ :=
  if currentIndex < period - 1 then some 0
  else
    ((List.range period.toNat).foldlM
      (fun (sum : ℚ) (i : Nat) => (vecAt data (currentIndex - (i : Int))).map (fun x => sum + x))
      (0 : ℚ)).map (fun sum => sum / (period : ℚ))

/-- The data members of class `MovingAverageStrategy`. -/
structure Strategy where
  prices : List ℚ
  shortMA : List ℚ
  longMA : List ℚ
  shortPeriod : Int
  longPeriod : Int
  deriving DecidableEq, Repr

/-- The constructor `MovingAverageStrategy(shortP, longP)`: the three vectors
start empty. -/
def construct (shortP longP : Int) : Strategy :=
  { prices := [], shortMA := [], longMA := [], shortPeriod := shortP, longPeriod := longP }

/-- `MovingAverageStrategy::generatePriceData`.  The values `d(gen)` are taken
from `draws`: the iteration with loop counter `i` uses `draws i`.  `back()` on
an empty vector counts as an out-of-bounds read. -/
def generatePriceData (self : Strategy) (draws : Nat → ℚ) (numDays : Int) (initialPrice : ℚ) :
    Option Strategy :=
  ((List.range' 1 (numDays.toNat - 1)).foldlM
    (fun (prices : List ℚ) (i : Nat) =>
      let change := draws i * 2
      prices.getLast?.bind fun back => some (prices ++ [back * (1 + change / 100)]))
    [initialPrice]).map fun prices => { self with prices := prices }

/-- `MovingAverageStrategy::calculateMovingAverages`. -/
def calculateMovingAverages (self : Strategy) : Option Strategy :=
  ((List.range self.prices.length).foldlM
    (fun (acc : List ℚ × List ℚ) (i : Nat) =>
      (calculateMA self.prices self.shortPeriod (i : Int)).bind fun s =>
      (calculateMA self.prices self.longPeriod (i : Int)).bind fun l =>
      some (acc.1 ++ [s], acc.2 ++ [l]))
    ([], [])).map fun acc => { self with shortMA := acc.1, longMA := acc.2 }

/-- The loop body of `runSingleSimulation` on the pair `(balance, position)`. -/
def singleStep (self : Strategy) (s : ℚ × Int) (i : Nat) : Option (ℚ × Int) :=
  self.shortMA[i]?.bind fun sm =>
  self.longMA[i]?.bind fun lm =>
  let position : Int :=
    if sm > lm ∧ s.2 = 0 then 1
    else if sm < lm ∧ s.2 = 1 then 0
    else s.2
  if position = 1 then
    self.prices[i]?.bind fun p =>
    (vecAtDiff self.prices i 1).bind fun q =>
    some (s.1 * (p / q), position)
  else some (s.1, position)

/-- `MovingAverageStrategy::runSingleSimulation`: the returned percentage and
the object as the call leaves it. -/
def runSingleSimulation (self : Strategy) (draws : Nat → ℚ) : Option (ℚ × Strategy) :=
  (generatePriceData self draws 252 100).bind fun self1 =>
  (calculateMovingAverages self1).bind fun self2 =>
  ((loopIndices self2.longPeriod self2.prices.length).foldlM (singleStep self2)
    ((10000 : ℚ), (0 : Int))).bind fun s =>
  some ((s.1 - 10000) / 10000 * 100, self2)

/-- One printed line `Day <i>: BUY at <price>` or `Day <i>: SELL at <price>`. -/
structure DayTrade where
  day : Nat
  action : TradeAction
  price : ℚ
  deriving DecidableEq, Repr

/-- The local variables of `simulateStrategy` and the lines printed so far. -/
structure SimState where
  balance : ℚ
  position : Int
  portfolioValue : List ℚ
  output : List DayTrade
  deriving DecidableEq, Repr

/-- The loop body of `simulateStrategy`. -/
def simulateStep (self : Strategy) (s : SimState) (i : Nat) : Option SimState :=
  self.shortMA[i]?.bind fun sm =>
  self.longMA[i]?.bind fun lm =>
  (if sm > lm ∧ s.position = 0 then
      self.prices[i]?.bind fun p =>
      some { s with position := 1, output := s.output ++ [⟨i, TradeAction.BUY, p⟩] }
    else if sm < lm ∧ s.position = 1 then
      self.prices[i]?.bind fun p =>
      some { s with position := 0, output := s.output ++ [⟨i, TradeAction.SELL, p⟩] }
    else some s).bind fun s1 =>
  (if s1.position = 1 then
      self.prices[i]?.bind fun p =>
      (vecAtDiff self.prices i 1).bind fun q =>
      some (s1.balance * (p / q))
    else some s1.balance).bind fun currentValue =>
  some { s1 with balance := currentValue,
                 portfolioValue := s1.portfolioValue ++ [currentValue] }

/-- What `simulateStrategy` prints: the trade lines, the final balance and the
return percentage; the final state is kept alongside. -/
structure SimReport where
  balance : ℚ
  returnPct : ℚ
  final : SimState
  deriving DecidableEq, Repr

/-- `MovingAverageStrategy::simulateStrategy` on the object's current vectors. -/
def simulateStrategy (self : Strategy) : Option SimReport :=
  ((loopIndices self.longPeriod self.prices.length).foldlM (simulateStep self)
    { balance := 10000, position := 0, portfolioValue := [], output := [] }).map fun s =>
  { balance := s.balance, returnPct := (s.balance - 10000) / 10000 * 100, final := s }

/-- The conversion `static_cast<int>(x)` of a `double`: truncation toward zero. -/
def castToInt (x : ℚ) : Int := Int.tdiv x.num (x.den : Int)

/-- The figures printed by `runMonteCarloSimulation`. -/
structure MonteCarloSummary where
  numSimulations : Int
  avg_return : ℚ
  median_return : ℚ
  max_return : ℚ
  min_return : ℚ
  percentile_95 : ℚ
  percentile_5 : ℚ
  deriving DecidableEq, Repr

/-- Lines 148-157 of `ma_strat.cpp`: the statistics `runMonteCarloSimulation`
takes from the collected `returns`.  `std::sort` is the ascending sort;
`front()` and `back()` of an empty vector count as out-of-bounds reads. -/
def aggregate (numSimulations : Int) (returns : List ℚ) : Option MonteCarloSummary :=
  let returns := returns.insertionSort (fun a b => a ≤ b)
  let avg_return := returns.foldl (fun a r => a + r) 0 / (numSimulations : ℚ)
  (vecAt returns (Int.tdiv numSimulations 2)).bind fun median_return =>
  returns.head?.bind fun min_return =>
  returns.getLast?.bind fun max_return =>
  let percentile_95_index := castToInt ((numSimulations : ℚ) * 0.95)
  let percentile_5_index := castToInt ((numSimulations : ℚ) * 0.05)
  (vecAt returns percentile_95_index).bind fun percentile_95 =>
  (vecAt returns percentile_5_index).bind fun percentile_5 =>
  some { numSimulations := numSimulations, avg_return := avg_return,
         median_return := median_return, max_return := max_return,
         min_return := min_return, percentile_95 := percentile_95,
         percentile_5 := percentile_5 }

/-- The collecting loop of `runMonteCarloSimulation`: trial `i` takes its random
values from `draws i`; the returns are pushed in trial order. -/
def collectReturns (self : Strategy) (draws : Nat → Nat → ℚ) (numSimulations : Int) :
    Option (List ℚ × Strategy) :=
  (List.range numSimulations.toNat).foldlM
    (fun (acc : List ℚ × Strategy) (i : Nat) =>
      (runSingleSimulation acc.2 (draws i)).bind fun r => some (acc.1 ++ [r.1], r.2))
    ([], self)

/-- `MovingAverageStrategy::runMonteCarloSimulation`.  `returns.reserve` with a
negative count throws `std::length_error`, which nothing catches: no report. -/
def runMonteCarloSimulation (self : Strategy) (draws : Nat → Nat → ℚ) (numSimulations : Int) :
    Option MonteCarloSummary :=
  if numSimulations < 0 then none
  else (collectReturns self draws numSimulations).bind fun acc => aggregate numSimulations acc.1

end MovingAverageStrategy

/-! ## The arithmetic of `double` as a parameter

The definitions above compute with exact rationals.  The ones below are the
same functions with the four operations of `double` taken from a parameter:
`exactOps` gives back the definitions above, `binary64Ops` rounds every result
to the nearest binary64 value. -/

/-- The four arithmetic operations of `double` that the programs use. -/
structure DoubleOps where
  add : ℚ → ℚ → ℚ
  sub : ℚ → ℚ → ℚ
  mul : ℚ → ℚ → ℚ
  div : ℚ → ℚ → ℚ

/-- Exact arithmetic. -/
def exactOps : DoubleOps :=
  { add := fun a b => a + b, sub := fun a b => a - b,
    mul := fun a b => a * b, div := fun a b => a / b }

/-- The power `2^k` for an integer exponent. -/
def pow2 (k : Int) : ℚ :=
  if 0 ≤ k then ((2 ^ k.toNat : Nat) : ℚ) else 1 / ((2 ^ (-k).toNat : Nat) : ℚ)

/-- The number of halvings that bring `n` below 2, that is `floor(log2 n)` for
`n >= 1`, when `fuel >= n`. -/
def log2Fuel : Nat → Nat → Nat
  | 0, _ => 0
  | fuel + 1, n => if n < 2 then 0 else log2Fuel fuel (n / 2) + 1

/-- The exponent `e` with `2^e <= |q| < 2^(e+1)`, for `q` not zero. -/
def floorLog2 (q : ℚ) : Int :=
  let a : ℚ := if q < 0 then -q else q
  let e0 : Int := (log2Fuel a.num.natAbs a.num.natAbs : Int) - (log2Fuel a.den a.den : Int)
  if pow2 e0 ≤ a then e0 else e0 - 1

/-- Rounding to the nearest integer, ties to the even one. -/
def roundHalfEven (q : ℚ) : Int :=
  let f : Int := q.num / (q.den : Int)
  let r : ℚ := q - (f : ℚ)
  if r < 1 / 2 then f else if 1 / 2 < r then f + 1 else if f % 2 = 0 then f else f + 1

/-- The binary64 value nearest to `q` (IEEE 754 round-to-nearest, ties to even):
53 significant bits, and the spacing `2^-1074` of the subnormals below
`2^-1022`, so that a small enough result underflows to zero.  Overflow to
infinity is not represented. -/
def roundBinary64 (q : ℚ) : ℚ :=
  if q = 0 then 0
  else
    let e : Int := max (floorLog2 q) (-1022)
    let quantum : ℚ := pow2 (e - 52)
    (roundHalfEven (q / quantum) : ℚ) * quantum

/-- The arithmetic of binary64: each operation is the exact one followed by
rounding.  As everywhere in this file, a division by zero yields `0`. -/
def binary64Ops : DoubleOps :=
  { add := fun a b => roundBinary64 (a + b), sub := fun a b => roundBinary64 (a - b),
    mul := fun a b => roundBinary64 (a * b), div := fun a b => roundBinary64 (a / b) }

/-- `Backtester::calculateMA` with the arithmetic as a parameter. -/
def Ops.Backtester.calculateMA (ops : DoubleOps) (data : List ℚ) (period : Int)
    (currentIndex : Int) : Option ℚ :=
  if currentIndex < period - 1 then some 0
  else
    ((List.range period.toNat).foldlM
      (fun (sum : ℚ) (i : Nat) =>
        (vecAt data (currentIndex - (i : Int))).map (fun x => ops.add sum x))
      (0 : ℚ)).map (fun sum => ops.div sum (period : ℚ))

/-- `MovingAverageStrategy::calculateMA` with the arithmetic as a parameter. -/
def Ops.MovingAverageStrategy.calculateMA (ops : DoubleOps) (data : List ℚ) (period : Int)
    (currentIndex : Int) : Option ℚ :=
  if currentIndex < period - 1 then some 0
  else
    ((List.range period.toNat).foldlM
      (fun (sum : ℚ) (i : Nat) =>
        (vecAt data (currentIndex - (i : Int))).map (fun x => ops.add sum x))
      (0 : ℚ)).map (fun sum => ops.div sum (period : ℚ))

/-- `Backtester::calculateMovingAverages` with the arithmetic as a parameter. -/
def Ops.Backtester.calculateMovingAverages (ops : DoubleOps)
    (historicalData : List Backtester.StockData) (shortPeriod longPeriod : Int) :
    Option (List ℚ × List ℚ) :=
  let prices := historicalData.map (fun data => data.close)
  (List.range prices.length).foldlM
    (fun (acc : List ℚ × List ℚ) (i : Nat) =>
      (Ops.Backtester.calculateMA ops prices shortPeriod (i : Int)).bind fun s =>
      (Ops.Backtester.calculateMA ops prices longPeriod (i : Int)).bind fun l =>
      some (acc.1 ++ [s], acc.2 ++ [l]))
    ([], [])

/-- The mark-to-market part of the loop body of `runBacktest` with the
arithmetic as a parameter. -/
def Ops.Backtester.markToMarket (ops : DoubleOps) (historicalData : List Backtester.StockData)
    (longPeriod : Int) (s : Backtester.LoopState) (i : Nat) : Option Backtester.LoopState :=
  (if s.position = 1 then
      historicalData[i]?.bind fun d =>
      (vecAtDiff historicalData i 1).bind fun p =>
      some (ops.mul s.balance (ops.div d.close p.close))
    else some s.balance).bind fun currentValue =>
  let portfolioValue := s.portfolioValue ++ [currentValue]
  (if (i : Int) > longPeriod then
      (vecAtDiff portfolioValue portfolioValue.length 2).bind fun prev =>
      some (s.returns ++ [ops.sub (ops.div currentValue prev) 1])
    else some s.returns).bind fun returns =>
  some { s with balance := currentValue, portfolioValue := portfolioValue, returns := returns }

/-- The loop body of `runBacktest` with the arithmetic as a parameter; the
signal part has no arithmetic. -/
def Ops.Backtester.step (ops : DoubleOps) (historicalData : List Backtester.StockData)
    (shortMA longMA : List ℚ) (longPeriod : Int) (s : Backtester.LoopState) (i : Nat) :
    Option Backtester.LoopState :=
  (Backtester.signal historicalData shortMA longMA s i).bind fun s1 =>
  Ops.Backtester.markToMarket ops historicalData longPeriod s1 i

/-- The state of `runBacktest` after the first `k` iterations of its loop, with
the arithmetic as a parameter. -/
def Ops.Backtester.stateAfter (ops : DoubleOps) (historicalData : List Backtester.StockData)
    (shortMA longMA : List ℚ) (longPeriod : Int) (k : Nat) : Option Backtester.LoopState :=
  ((loopIndices longPeriod historicalData.length).take k).foldlM
    (Ops.Backtester.step ops historicalData shortMA longMA longPeriod) Backtester.initialState

/-- `Backtester::runBacktest` with the arithmetic as a parameter. -/
def Ops.Backtester.runBacktest (ops : DoubleOps) (historicalData : List Backtester.StockData)
    (shortPeriod longPeriod : Int) : Backtester.Outcome :=
  if historicalData.isEmpty then Backtester.Outcome.noData
  else
    match Ops.Backtester.calculateMovingAverages ops historicalData shortPeriod longPeriod with
    | none => Backtester.Outcome.outOfBounds
    | some (shortMA, longMA) =>
      match historicalData.head?, historicalData.getLast? with
      | some first, some last =>
        let firstPrice := first.close
        let lastPrice := last.close
        let buyAndHoldReturn := ops.mul (ops.div (ops.sub lastPrice firstPrice) firstPrice) 100
        let buyAndHoldFinalBalance :=
          ops.mul Backtester.initialBalance (ops.div lastPrice firstPrice)
        match (loopIndices longPeriod historicalData.length).foldlM
            (Ops.Backtester.step ops historicalData shortMA longMA longPeriod)
            Backtester.initialState with
        | none => Backtester.Outcome.outOfBounds
        | some s =>
          let totalReturn :=
            ops.mul (ops.div (ops.sub s.balance Backtester.initialBalance)
              Backtester.initialBalance) 100
          let avgReturn :=
            ops.div (s.returns.foldl (fun a r => ops.add a r) 0) (s.returns.length : ℚ)
          let volatility :=
            s.returns.foldl
              (fun v r => ops.add v (ops.mul (ops.sub r avgReturn) (ops.sub r avgReturn))) 0
          Backtester.Outcome.done
            { initialBalance := Backtester.initialBalance, balance := s.balance,
              totalReturn := totalReturn, trades := s.trades, avgReturn := avgReturn,
              variance := ops.div volatility (s.returns.length : ℚ),
              buyAndHoldFinalBalance := buyAndHoldFinalBalance,
              buyAndHoldReturn := buyAndHoldReturn,
              position := s.position, portfolioValue := s.portfolioValue,
              returns := s.returns, output := s.output }
      | _, _ => Backtester.Outcome.outOfBounds

/-! ## Vocabulary of the statements -/

/-- The value `calculateMA` returns at an index (`0` when a read fails). -/
def maValue (data : List ℚ) (period : Int) (i : Nat) : ℚ :=
  (Backtester.calculateMA data period (i : Int)).getD 0

/-- The closes of a series, the vector `prices` of `calculateMovingAverages`. -/
def closes (historicalData : List Backtester.StockData) : List ℚ :=
  historicalData.map fun d => d.close

/-- The vector of moving averages `calculateMovingAverages` builds for one period. -/
def maSeries (data : List ℚ) (period : Int) : List ℚ :=
  (List.range data.length).map (maValue data period)

/-- The loop state of `runBacktest` after `k` iterations, on the averages that
`calculateMovingAverages` computes. -/
def Backtester.loopStateAfter (historicalData : List Backtester.StockData)
    (shortPeriod longPeriod : Int) (k : Nat) : Option Backtester.LoopState :=
  Backtester.stateAfter historicalData (maSeries (closes historicalData) shortPeriod)
    (maSeries (closes historicalData) longPeriod) longPeriod k

/-- What one iteration of the loop of `runBacktest` does to the loop state, in
terms of the values it reads: `sm = shortMA[i]`, `lm = longMA[i]`,
`d = historicalData[i]` and `p = historicalData[i-1]`. -/
def Backtester.StepRel (sm lm : ℚ) (d p : Backtester.StockData) (longPeriod : Int) (i : Nat)
    (s t : Backtester.LoopState) : Prop :=
  ((sm > lm ∧ s.position = 0 ∧ t.position = 1 ∧ t.trades = s.trades + 1
        ∧ t.output = s.output ++ [⟨i, d.date, TradeAction.BUY, d.close⟩])
      ∨ (¬ (sm > lm ∧ s.position = 0) ∧ sm < lm ∧ s.position = 1 ∧ t.position = 0
        ∧ t.trades = s.trades + 1
        ∧ t.output = s.output ++ [⟨i, d.date, TradeAction.SELL, d.close⟩])
      ∨ (¬ (sm > lm ∧ s.position = 0) ∧ ¬ (sm < lm ∧ s.position = 1)
        ∧ t.position = s.position ∧ t.trades = s.trades ∧ t.output = s.output))
    ∧ t.balance = (if t.position = 1 then s.balance * (d.close / p.close) else s.balance)
    ∧ t.portfolioValue = s.portfolioValue ++ [t.balance]
    ∧ (¬ ((i : Int) > longPeriod) → t.returns = s.returns)
    ∧ (∀ prev : ℚ, (i : Int) > longPeriod → s.portfolioValue.getLast? = some prev →
        t.returns = s.returns ++ [t.balance / prev - 1])

/-- The action sequence BUY, SELL, BUY, ... of length `n`. -/
def alternating (n : Nat) : List TradeAction :=
  (List.range n).map fun k => if k % 2 = 0 then TradeAction.BUY else TradeAction.SELL

/-- A sequence of trade actions strictly alternates and, when non-empty, starts
with a BUY: no two neighbours are equal and the head is BUY. -/
def Alternates (l : List TradeAction) : Prop :=
  (∀ (k : Nat) (a b : TradeAction), l[k]? = some a → l[k + 1]? = some b → a ≠ b)
    ∧ (∀ a : TradeAction, l.head? = some a → a = TradeAction.BUY)

/-- The part of the loop state of `runBacktest` that `simulateStrategy` also
keeps: balance, position, trajectory and printed trades. -/
def toSim (s : Backtester.LoopState) : MovingAverageStrategy.SimState :=
  { balance := s.balance, position := s.position, portfolioValue := s.portfolioValue,
    output := s.output.map fun t => ⟨t.index, t.action, t.price⟩ }

/-- The `MovingAverageStrategy` object once `prices` is filled and
`calculateMovingAverages` has run on it. -/
def readyStrategy (prices : List ℚ) (shortPeriod longPeriod : Int) :
    MovingAverageStrategy.Strategy :=
  { prices := prices, shortMA := maSeries prices shortPeriod,
    longMA := maSeries prices longPeriod, shortPeriod := shortPeriod, longPeriod := longPeriod }

/-- The closes `100, 101, ..., 124` of the rising scenario. -/
def risingCloses : List ℚ :=
  [100, 101, 102, 103, 104, 105, 106, 107, 108, 109, 110, 111, 112,
   113, 114, 115, 116, 117, 118, 119, 120, 121, 122, 123, 124]

/-- The random walk of the synthetic path: the initial price, then each price
is the one before times `1 + (z_i * 2) / 100`. -/
def syntheticPrice (draws : Nat → ℚ) (initialPrice : ℚ) : Nat → ℚ
  | 0 => initialPrice
  | i + 1 => syntheticPrice draws initialPrice i * (1 + (draws (i + 1) * 2) / 100)

/-- Draws that are `0` except `z_19 = -100` and `z_20 = -300`: the 21-day path
is `100` nineteen times, then `-100`, then `500`. -/
def negativeDraws : Nat → ℚ :=
  fun i => if i = 19 then -100 else if i = 20 then -300 else 0

/-- The 21-day path that `generatePriceData` builds from `negativeDraws`. -/
def negativePath : List ℚ :=
  [100, 100, 100, 100, 100, 100, 100, 100, 100, 100, 100, 100, 100, 100, 100, 100, 100, 100,
   100, -100, 500]

/-- The value `calculateMA` returns at an index, with the arithmetic as a
parameter (`0` when a read fails). -/
def Ops.maValue (ops : DoubleOps) (data : List ℚ) (period : Int) (i : Nat) : ℚ :=
  (Ops.Backtester.calculateMA ops data period (i : Int)).getD 0

/-- The vector of moving averages for one period, with the arithmetic as a
parameter. -/
def Ops.maSeries (ops : DoubleOps) (data : List ℚ) (period : Int) : List ℚ :=
  (List.range data.length).map (Ops.maValue ops data period)

/-- The loop state of `runBacktest` after `k` iterations, with the arithmetic
as a parameter. -/
def Ops.loopStateAfter (ops : DoubleOps) (historicalData : List Backtester.StockData)
    (shortPeriod longPeriod : Int) (k : Nat) : Option Backtester.LoopState :=
  Ops.Backtester.stateAfter ops historicalData (Ops.maSeries ops (closes historicalData) shortPeriod)
    (Ops.maSeries ops (closes historicalData) longPeriod) longPeriod k

/-- What one iteration of the loop of `runBacktest` does to the loop state,
with the arithmetic as a parameter. -/
def Ops.StepRel (ops : DoubleOps) (sm lm : ℚ) (d p : Backtester.StockData) (longPeriod : Int)
    (i : Nat) (s t : Backtester.LoopState) : Prop :=
  ((sm > lm ∧ s.position = 0 ∧ t.position = 1 ∧ t.trades = s.trades + 1
        ∧ t.output = s.output ++ [⟨i, d.date, TradeAction.BUY, d.close⟩])
      ∨ (¬ (sm > lm ∧ s.position = 0) ∧ sm < lm ∧ s.position = 1 ∧ t.position = 0
        ∧ t.trades = s.trades + 1
        ∧ t.output = s.output ++ [⟨i, d.date, TradeAction.SELL, d.close⟩])
      ∨ (¬ (sm > lm ∧ s.position = 0) ∧ ¬ (sm < lm ∧ s.position = 1)
        ∧ t.position = s.position ∧ t.trades = s.trades ∧ t.output = s.output))
    ∧ t.balance
        = (if t.position = 1 then ops.mul s.balance (ops.div d.close p.close) else s.balance)
    ∧ t.portfolioValue = s.portfolioValue ++ [t.balance]
    ∧ (¬ ((i : Int) > longPeriod) → t.returns = s.returns)
    ∧ (∀ prev : ℚ, (i : Int) > longPeriod → s.portfolioValue.getLast? = some prev →
        t.returns = s.returns ++ [ops.sub (ops.div t.balance prev) 1])

theorem vecAt_sub (data : List ℚ) (i k : Nat) (hk : k ≤ i) :
    vecAt data ((i : Int) - (k : Int)) = data[i - k]? := by
  have h1 : ¬ ((i : Int) - (k : Int) < 0) := by omega
  have h2 : ((i : Int) - (k : Int)).toNat = i - k := by omega
  simp [vecAt, h1, h2]

/-- The summation loop of `calculateMA` reads inside the vector and yields the
sum of the window that ends at `i`. -/
theorem sumLoop_eq (data : List ℚ) (i : Nat) (hi : i < data.length) :
    ∀ P : Nat, P ≤ i + 1 →
      (List.range P).foldlM
        (fun (sum : ℚ) (k : Nat) => (vecAt data ((i : Int) - (k : Int))).map (fun x => sum + x))
        (0 : ℚ) = some ((data.drop (i + 1 - P)).take P).sum := by
  intro P
  induction P with
  | zero => intro _; simp
  | succ P ih =>
    intro hP
    have hPi : P ≤ i := by omega
    rw [List.range_succ, List.foldlM_append, ih (by omega)]
    have hd : data.drop (i + 1 - (P + 1)) = data[i - P] :: data.drop (i + 1 - P) := by
      have : i + 1 - (P + 1) = i - P := by omega
      rw [this, List.drop_eq_getElem_cons (by omega : i - P < data.length)]
      congr 2
      omega
    rw [hd, List.take_succ_cons, List.sum_cons]
    simp [vecAt_sub data i P hPi, List.getElem?_eq_getElem (by omega : i - P < data.length),
      add_comm]

theorem MovingAverageStrategy.calculateMA_eq :
    MovingAverageStrategy.calculateMA = Backtester.calculateMA := rfl

theorem calculateMA_sentinel (data : List ℚ) (P i : Int) (h : i < P - 1) :
    Backtester.calculateMA data P i = some 0 := by
  simp [Backtester.calculateMA, h]

theorem calculateMA_window (data : List ℚ) (P i : Nat) (hlo : P ≤ i + 1)
    (hi : i < data.length) :
    Backtester.calculateMA data (P : Int) (i : Int)
      = some (((data.drop (i + 1 - P)).take P).sum / (P : ℚ)) := by
  have h : ¬ ((i : Int) < (P : Int) - 1) := by omega
  simp only [Backtester.calculateMA, h, if_false, Int.toNat_ofNat]
  rw [sumLoop_eq data i hi P hlo]
  simp

/-- C1: for every price sequence, period `P >= 1` and index `0 <= i < P - 1`,
both copies of `calculateMA` return exactly `0`; they do so on the empty vector
too, where any read would be out of bounds, so no element of `data` is read. -/
theorem C1_insufficient_history_sentinel (data : List ℚ) (P i : Int)
    (hP : 1 ≤ P) (h0 : 0 ≤ i) (hlt : i < P - 1) :
    Backtester.calculateMA data P i = some 0
      ∧ MovingAverageStrategy.calculateMA data P i = some 0
      ∧ Backtester.calculateMA [] P i = some 0
      ∧ MovingAverageStrategy.calculateMA [] P i = some 0 := by
  have _ := hP
  have _ := h0
  refine ⟨calculateMA_sentinel data P i hlt, ?_, calculateMA_sentinel [] P i hlt, ?_⟩
  · rw [MovingAverageStrategy.calculateMA_eq]; exact calculateMA_sentinel data P i hlt
  · rw [MovingAverageStrategy.calculateMA_eq]; exact calculateMA_sentinel [] P i hlt

/-- C1 at a three-element vector with period 5 and index 3. -/
theorem C1_insufficient_history_sentinel_witness :
    ((1 : Int) ≤ 5 ∧ (0 : Int) ≤ 3 ∧ (3 : Int) < 5 - 1)
      ∧ Backtester.calculateMA [7, 8, 9] 5 3 = some 0
      ∧ MovingAverageStrategy.calculateMA [7, 8, 9] 5 3 = some 0
      ∧ Backtester.calculateMA [] 5 3 = some 0
      ∧ MovingAverageStrategy.calculateMA [] 5 3 = some 0 :=
  ⟨by decide, C1_insufficient_history_sentinel [7, 8, 9] 5 3 (by decide) (by decide) (by decide)⟩

/-! ## Loops over index ranges -/

theorem take_range' (k : Nat) :
    ∀ n s : Nat, (List.range' s n).take k = List.range' s (min k n) := by
  induction k with
  | zero => intro n s; simp
  | succ k ih =>
    intro n s
    cases n with
    | zero => simp
    | succ n => rw [List.range'_succ, List.take_succ_cons, ih, Nat.succ_min_succ, List.range'_succ]

/-- Invariant rule for a counted loop whose body may fail: when every iteration
that starts in the invariant succeeds and re-establishes it, the loop succeeds
and ends in the invariant. -/
theorem foldlM_range'_inv {σ : Type} (f : σ → Nat → Option σ) (Inv : Nat → σ → Prop) :
    ∀ (len start : Nat) (s : σ), Inv start s →
      (∀ i t, start ≤ i → i < start + len → Inv i t → ∃ t', f t i = some t' ∧ Inv (i + 1) t') →
      ∃ t, (List.range' start len).foldlM f s = some t ∧ Inv (start + len) t := by
  intro len
  induction len with
  | zero => intro start s h _; exact ⟨s, by simp, by simpa using h⟩
  | succ len ih =>
    intro start s h hstep
    obtain ⟨t', ht', hI⟩ := hstep start s (le_refl _) (by omega) h
    obtain ⟨t, ht, hIt⟩ :=
      ih (start + 1) t' hI (fun i u h1 h2 hu => hstep i u (by omega) (by omega) hu)
    refine ⟨t, ?_, ?_⟩
    · rw [List.range'_succ, List.foldlM_cons, ht']
      exact ht
    · have : start + (len + 1) = start + 1 + len := by omega
      rw [this]; exact hIt

/-- The loop that pushes two computed values per index builds the two mapped
lists when every computation succeeds. -/
theorem pushLoop_eq (g1 g2 : Nat → Option ℚ) (a b : Nat → ℚ) :
    ∀ n : Nat, (∀ i, i < n → g1 i = some (a i)) → (∀ i, i < n → g2 i = some (b i)) →
      (List.range n).foldlM
        (fun (acc : List ℚ × List ℚ) (i : Nat) =>
          (g1 i).bind fun s => (g2 i).bind fun l => some (acc.1 ++ [s], acc.2 ++ [l]))
        ([], []) = some ((List.range n).map a, (List.range n).map b) := by
  intro n
  induction n with
  | zero => intro _ _; rfl
  | succ n ih =>
    intro h1 h2
    rw [List.range_succ, List.foldlM_append,
      ih (fun i hi => h1 i (by omega)) (fun i hi => h2 i (by omega))]
    simp [h1 n (by omega), h2 n (by omega)]

theorem calculateMA_isSome (data : List ℚ) (period : Int) (i : Nat) (hi : i < data.length) :
    Backtester.calculateMA data period (i : Int) = some (maValue data period i) := by
  have key : ∃ x, Backtester.calculateMA data period (i : Int) = some x := by
    by_cases h : (i : Int) < period - 1
    · exact ⟨0, calculateMA_sentinel data period i h⟩
    · by_cases hp : period ≤ 0
      · refine ⟨0 / (period : ℚ), ?_⟩
        have : period.toNat = 0 := by omega
        simp [Backtester.calculateMA, h, this]
      · have hp1 : 0 ≤ period := by omega
        lift period to Nat using hp1
        exact ⟨_, calculateMA_window data period i (by omega) hi⟩
  obtain ⟨x, hx⟩ := key
  simp [maValue, hx]

theorem calculateMovingAverages_eq (historicalData : List Backtester.StockData)
    (shortPeriod longPeriod : Int) :
    Backtester.calculateMovingAverages historicalData shortPeriod longPeriod
      = some (maSeries (closes historicalData) shortPeriod,
              maSeries (closes historicalData) longPeriod) := by
  unfold Backtester.calculateMovingAverages maSeries closes
  exact pushLoop_eq _ _ _ _ _
    (fun i hi => calculateMA_isSome _ _ i hi)
    (fun i hi => calculateMA_isSome _ _ i hi)

theorem maSeries_getElem? (data : List ℚ) (period : Int) (i : Nat) (hi : i < data.length) :
    (maSeries data period)[i]? = some (maValue data period i) := by
  simp [maSeries, hi]

/-! ## The loop body of `runBacktest` -/

theorem signal_eq (historicalData : List Backtester.StockData) (shortMA longMA : List ℚ)
    (s : Backtester.LoopState) (i : Nat) (sm lm : ℚ) (d : Backtester.StockData)
    (hs : shortMA[i]? = some sm) (hl : longMA[i]? = some lm) (hd : historicalData[i]? = some d) :
    Backtester.signal historicalData shortMA longMA s i
      = some (if sm > lm ∧ s.position = 0 then
                { s with position := 1, trades := s.trades + 1,
                         output := s.output ++ [⟨i, d.date, TradeAction.BUY, d.close⟩] }
              else if sm < lm ∧ s.position = 1 then
                { s with position := 0, trades := s.trades + 1,
                         output := s.output ++ [⟨i, d.date, TradeAction.SELL, d.close⟩] }
              else s) := by
  simp only [Backtester.signal, hs, hl, hd, Option.some_bind]
  split_ifs <;> rfl

theorem markToMarket_eq (historicalData : List Backtester.StockData) (longPeriod : Int)
    (s : Backtester.LoopState) (i : Nat) (d p : Backtester.StockData) (prev : ℚ)
    (hd : historicalData[i]? = some d) (hi : 1 ≤ i) (hp : historicalData[i - 1]? = some p)
    (hprev : (i : Int) > longPeriod → s.portfolioValue.getLast? = some prev) :
    Backtester.markToMarket historicalData longPeriod s i
      = some { s with
          balance := if s.position = 1 then s.balance * (d.close / p.close) else s.balance,
          portfolioValue := s.portfolioValue ++
            [if s.position = 1 then s.balance * (d.close / p.close) else s.balance],
          returns := if (i : Int) > longPeriod then
              s.returns ++
                [(if s.position = 1 then s.balance * (d.close / p.close) else s.balance) / prev - 1]
            else s.returns } := by
  have hcv : (if s.position = 1 then
        historicalData[i]?.bind fun d => (vecAtDiff historicalData i 1).bind fun p =>
          some (s.balance * (d.close / p.close))
      else some s.balance)
      = some (if s.position = 1 then s.balance * (d.close / p.close) else s.balance) := by
    split_ifs
    · simp [hd, vecAtDiff, hi, hp]
    · rfl
  unfold Backtester.markToMarket
  rw [hcv]
  simp only [Option.some_bind]
  by_cases hgt : (i : Int) > longPeriod
  · have hlast := hprev hgt
    have hne : s.portfolioValue ≠ [] := by
      intro h; rw [h] at hlast; simp at hlast
    have hlen : 1 ≤ s.portfolioValue.length := by
      cases hpv : s.portfolioValue with
      | nil => exact absurd hpv hne
      | cons a t => simp
    have hread : ∀ cv : ℚ, vecAtDiff (s.portfolioValue ++ [cv]) (s.portfolioValue ++ [cv]).length 2
        = some prev := by
      intro cv
      have h2 : 2 ≤ (s.portfolioValue ++ [cv]).length := by simp; omega
      simp only [vecAtDiff, h2, if_true]
      have h3 : (s.portfolioValue ++ [cv]).length - 2 = s.portfolioValue.length - 1 := by
        simp
      rw [h3, List.getElem?_append_left (by omega), ← List.getLast?_eq_getElem?]
      exact hlast
    simp only [hgt, if_true, hread, Option.some_bind]
  · simp only [hgt, if_false, Option.some_bind]

theorem step_spec (historicalData : List Backtester.StockData) (shortMA longMA : List ℚ)
    (longPeriod : Int)
    (s : Backtester.LoopState) (i : Nat) (sm lm : ℚ) (d p : Backtester.StockData)
    (hs : shortMA[i]? = some sm) (hl : longMA[i]? = some lm)
    (hd : historicalData[i]? = some d) (hi : 1 ≤ i) (hp : historicalData[i - 1]? = some p)
    (hprev : (i : Int) > longPeriod → s.portfolioValue ≠ []) :
    ∃ t, Backtester.step historicalData shortMA longMA longPeriod s i = some t
      ∧ Backtester.StepRel sm lm d p longPeriod i s t := by
  obtain ⟨prev, hprev'⟩ : ∃ prev : ℚ,
      (i : Int) > longPeriod → s.portfolioValue.getLast? = some prev := by
    by_cases hgt : (i : Int) > longPeriod
    · obtain ⟨x, hx⟩ := Option.isSome_iff_exists.mp
        (List.getLast?_isSome.mpr (hprev hgt))
      exact ⟨x, fun _ => hx⟩
    · exact ⟨0, fun h => absurd h hgt⟩
  have key : ∀ s1 : Backtester.LoopState, s1.portfolioValue = s.portfolioValue →
      s1.balance = s.balance →
      s1.returns = s.returns →
      ∃ t, Backtester.markToMarket historicalData longPeriod s1 i = some t
        ∧ t.position = s1.position ∧ t.trades = s1.trades ∧ t.output = s1.output
        ∧ t.balance = (if t.position = 1 then s.balance * (d.close / p.close) else s.balance)
        ∧ t.portfolioValue = s.portfolioValue ++ [t.balance]
        ∧ (¬ ((i : Int) > longPeriod) → t.returns = s.returns)
        ∧ (∀ q : ℚ, (i : Int) > longPeriod → s.portfolioValue.getLast? = some q →
            t.returns = s.returns ++ [t.balance / q - 1]) := by
    intro s1 h1 h2 h3
    rw [markToMarket_eq historicalData longPeriod s1 i d p prev hd hi hp
      (by rw [h1]; exact hprev')]
    refine ⟨_, rfl, rfl, rfl, rfl, ?_, ?_, ?_, ?_⟩
    · simp only [h2]
    · simp only [h1, h2]
    · intro hgt; simp only [hgt, if_false, h3]
    · intro q hgt hq
      have hq' : prev = q := by
        have := hprev' hgt
        rw [hq] at this
        exact (Option.some.inj this).symm
      simp only [hgt, if_true, h2, h3, hq']
  unfold Backtester.step
  rw [signal_eq historicalData shortMA longMA s i sm lm d hs hl hd, Option.some_bind]
  by_cases hb : sm > lm ∧ s.position = 0
  · rw [if_pos hb]
    obtain ⟨t, ht, hpos, htr, hout, hrest⟩ := key
      { s with position := 1, trades := s.trades + 1,
               output := s.output ++ [⟨i, d.date, TradeAction.BUY, d.close⟩] } rfl rfl rfl
    exact ⟨t, ht, Or.inl ⟨hb.1, hb.2, hpos, htr, hout⟩, hrest⟩
  · rw [if_neg hb]
    by_cases hc : sm < lm ∧ s.position = 1
    · rw [if_pos hc]
      obtain ⟨t, ht, hpos, htr, hout, hrest⟩ := key
        { s with position := 0, trades := s.trades + 1,
                 output := s.output ++ [⟨i, d.date, TradeAction.SELL, d.close⟩] } rfl rfl rfl
      exact ⟨t, ht, Or.inr (Or.inl ⟨hb, hc.1, hc.2, hpos, htr, hout⟩), hrest⟩
    · rw [if_neg hc]
      obtain ⟨t, ht, hpos, htr, hout, hrest⟩ := key s rfl rfl rfl
      exact ⟨t, ht, Or.inr (Or.inr ⟨hb, hc, hpos, htr, hout⟩), hrest⟩

/-! ## The loop of `runBacktest` as a whole -/

/-- Invariant rule for the loop of `Backtester.runBacktest` with `longPeriod >= 1`: every
iteration succeeds, so an invariant kept by the step relation holds after any
number of iterations. -/
theorem loop_inv (historicalData : List Backtester.StockData) (shortPeriod longPeriod : Int)
    (hlp : 1 ≤ longPeriod) (Inv : Nat → Backtester.LoopState → Prop)
    (h0 : Inv longPeriod.toNat Backtester.initialState)
    (hstep : ∀ (i : Nat) (s t : Backtester.LoopState) (d p : Backtester.StockData),
      longPeriod.toNat ≤ i → i < historicalData.length →
      historicalData[i]? = some d → historicalData[i - 1]? = some p →
      s.portfolioValue.length = i - longPeriod.toNat → Inv i s →
      Backtester.StepRel (maValue (closes historicalData) shortPeriod i)
        (maValue (closes historicalData) longPeriod i) d p longPeriod i s t →
      Inv (i + 1) t)
    (k : Nat) :
    ∃ s, Backtester.loopStateAfter historicalData shortPeriod longPeriod k = some s
      ∧ Inv (longPeriod.toNat + min k (historicalData.length - longPeriod.toNat)) s
      ∧ s.portfolioValue.length = min k (historicalData.length - longPeriod.toNat) := by
  have hneg : ¬ longPeriod < 0 := by omega
  unfold Backtester.loopStateAfter Backtester.stateAfter loopIndices
  rw [if_neg hneg, take_range']
  obtain ⟨s, hs, hI, hlen⟩ := foldlM_range'_inv
    (Backtester.step historicalData (maSeries (closes historicalData) shortPeriod)
      (maSeries (closes historicalData) longPeriod) longPeriod)
    (fun i s => Inv i s ∧ s.portfolioValue.length = i - longPeriod.toNat)
    (min k (historicalData.length - longPeriod.toNat)) longPeriod.toNat Backtester.initialState
    ⟨h0, by simp [Backtester.initialState]⟩
    (by
      intro i s hlo hhi ⟨hinv, hpv⟩
      have hin : i < historicalData.length := by omega
      have hi1 : 1 ≤ i := by omega
      have hcl : i < (closes historicalData).length := by simpa [closes] using hin
      obtain ⟨t, ht, hrel⟩ := step_spec historicalData
        (maSeries (closes historicalData) shortPeriod)
        (maSeries (closes historicalData) longPeriod) longPeriod s i
        (maValue (closes historicalData) shortPeriod i)
        (maValue (closes historicalData) longPeriod i)
        historicalData[i] (historicalData[i - 1])
        (maSeries_getElem? _ _ i hcl) (maSeries_getElem? _ _ i hcl)
        (List.getElem?_eq_getElem hin) hi1 (List.getElem?_eq_getElem (by omega))
        (by
          intro hgt hnil
          rw [hnil] at hpv
          simp at hpv
          omega)
      refine ⟨t, ht, hstep i s t _ _ hlo hin (List.getElem?_eq_getElem hin)
        (List.getElem?_eq_getElem (by omega)) hpv hinv hrel, ?_⟩
      rw [hrel.2.2.1, List.length_append, hpv]
      simp
      omega)
  exact ⟨s, hs, hI, by omega⟩

theorem loopStateAfter_length (historicalData : List Backtester.StockData) (shortPeriod longPeriod : Int) :
    Backtester.loopStateAfter historicalData shortPeriod longPeriod historicalData.length
      = (loopIndices longPeriod historicalData.length).foldlM
          (Backtester.step historicalData (maSeries (closes historicalData) shortPeriod)
            (maSeries (closes historicalData) longPeriod) longPeriod) Backtester.initialState := by
  unfold Backtester.loopStateAfter Backtester.stateAfter
  rw [List.take_of_length_le]
  unfold loopIndices
  split_ifs
  · simp
  · simp

/-- When the loop of `Backtester.runBacktest` ends in state `s`, the run prints its report
from `s` and from the first and last closes. -/
theorem runBacktest_done (historicalData : List Backtester.StockData) (shortPeriod longPeriod : Int)
    (first last : Backtester.StockData) (s : Backtester.LoopState)
    (hfirst : historicalData.head? = some first) (hlast : historicalData.getLast? = some last)
    (hs : Backtester.loopStateAfter historicalData shortPeriod longPeriod historicalData.length = some s) :
    ∃ r, Backtester.runBacktest historicalData shortPeriod longPeriod = Backtester.Outcome.done r
      ∧ r.initialBalance = 10000 ∧ r.balance = s.balance
      ∧ r.totalReturn = ((s.balance - 10000) / 10000) * 100
      ∧ r.trades = s.trades ∧ r.position = s.position ∧ r.output = s.output
      ∧ r.portfolioValue = s.portfolioValue ∧ r.returns = s.returns
      ∧ r.buyAndHoldFinalBalance = 10000 * (last.close / first.close)
      ∧ r.buyAndHoldReturn = ((last.close - first.close) / first.close) * 100 := by
  rw [loopStateAfter_length] at hs
  have hne : historicalData.isEmpty = false := by
    cases historicalData with
    | nil => simp at hfirst
    | cons a t => rfl
  unfold Backtester.runBacktest
  simp only [hne, calculateMovingAverages_eq, hfirst, hlast, hs]
  exact ⟨_, rfl, rfl, rfl, rfl, rfl, rfl, rfl, rfl, rfl, rfl, rfl⟩

/-! ## Alternation of the emitted trades -/

theorem alternating_succ (n : Nat) :
    alternating (n + 1)
      = alternating n ++ [if n % 2 = 0 then TradeAction.BUY else TradeAction.SELL] := by
  simp [alternating, List.range_succ]

theorem alternating_getElem? (n k : Nat) (a : TradeAction) (h : (alternating n)[k]? = some a) :
    a = if k % 2 = 0 then TradeAction.BUY else TradeAction.SELL := by
  unfold alternating at h
  rw [List.getElem?_map] at h
  by_cases hk : k < n
  · rw [List.getElem?_range hk] at h
    simpa using h.symm
  · rw [List.getElem?_eq_none (by simpa using hk)] at h
    simp at h

theorem alternates_alternating (n : Nat) : Alternates (alternating n) := by
  constructor
  · intro k a b ha hb
    rw [alternating_getElem? n k a ha, alternating_getElem? n (k + 1) b hb]
    rcases Nat.mod_two_eq_zero_or_one k with h | h
    · have h' : (k + 1) % 2 = 1 := by omega
      simp [h, h']
    · have h' : (k + 1) % 2 = 0 := by omega
      simp [h, h']
  · intro a ha
    rw [List.head?_eq_getElem?] at ha
    simpa using alternating_getElem? n 0 a ha

/-- The alternation invariant is kept by one iteration of the loop: the actions
printed so far are BUY, SELL, BUY, ... and `position` is `1` exactly after a BUY. -/
theorem alternation_step (sm lm : ℚ) (d p : Backtester.StockData) (longPeriod : Int) (i : Nat)
    (s t : Backtester.LoopState)
    (hinv : s.output.map (fun x => x.action) = alternating s.output.length
      ∧ s.position = ((s.output.length % 2 : Nat) : Int))
    (hrel : Backtester.StepRel sm lm d p longPeriod i s t) :
    t.output.map (fun x => x.action) = alternating t.output.length
      ∧ t.position = ((t.output.length % 2 : Nat) : Int) := by
  obtain ⟨hact, hpos⟩ := hinv
  rcases hrel.1 with ⟨_, hs0, ht1, _, hout⟩ | ⟨_, _, hs1, ht0, _, hout⟩ | ⟨_, _, hsame, _, hout⟩
  · have hev : s.output.length % 2 = 0 := by rw [hs0] at hpos; omega
    rw [hout, List.map_append, hact, List.length_append, List.length_singleton,
      alternating_succ, ht1]
    refine ⟨by simp [hev], ?_⟩
    have : (s.output.length + 1) % 2 = 1 := by omega
    rw [this]; rfl
  · have hodd : s.output.length % 2 = 1 := by rw [hs1] at hpos; omega
    rw [hout, List.map_append, hact, List.length_append, List.length_singleton,
      alternating_succ, ht0]
    refine ⟨by simp [hodd], ?_⟩
    have : (s.output.length + 1) % 2 = 0 := by omega
    rw [this]; rfl
  · rw [hout, hsame]
    exact ⟨hact, hpos⟩

/-! ## The loop of `simulateStrategy`, step by step against `runBacktest` -/

theorem seriesOf_getElem? (prices : List ℚ) (i : Nat) :
    (Backtester.seriesOf prices)[i]?
      = prices[i]?.map fun c => { date := "", price := c, close := c, high := c, low := c,
                                  openPrice := c, volume := 0 } := by
  simp [Backtester.seriesOf]

theorem closes_seriesOf (prices : List ℚ) : closes (Backtester.seriesOf prices) = prices := by
  unfold closes Backtester.seriesOf
  rw [List.map_map]
  exact List.map_id prices

theorem length_seriesOf (prices : List ℚ) : (Backtester.seriesOf prices).length = prices.length := by
  simp [Backtester.seriesOf]

/-- On the same reads, the loop body of `simulateStrategy` takes the state
`toSim s` to `toSim t` whenever the loop body of `runBacktest` takes `s` to `t`. -/
theorem simulateStep_spec (self : MovingAverageStrategy.Strategy) (i : Nat) (sm lm : ℚ)
    (d p : Backtester.StockData) (lp : Int) (s t : Backtester.LoopState)
    (hs : self.shortMA[i]? = some sm) (hl : self.longMA[i]? = some lm)
    (hd : self.prices[i]? = some d.close) (hi : 1 ≤ i) (hp : self.prices[i - 1]? = some p.close)
    (hrel : Backtester.StepRel sm lm d p lp i s t) :
    MovingAverageStrategy.simulateStep self (toSim s) i = some (toSim t) := by
  obtain ⟨hcase, hbal, hpv, _, _⟩ := hrel
  unfold MovingAverageStrategy.simulateStep
  simp only [hs, hl, hd, hp, vecAtDiff, hi, if_true, Option.some_bind]
  rcases hcase with ⟨hb, hs0, ht1, _, hout⟩ | ⟨hnb, hc, hs1, ht0, _, hout⟩ | ⟨hnb, hnc, hsame, _, hout⟩
  · have hcond : sm > lm ∧ (toSim s).position = 0 := ⟨hb, hs0⟩
    rw [if_pos hcond]
    rw [ht1] at hbal
    simp [toSim, hbal, ht1, hpv, hout]
  · have hcond1 : ¬ (sm > lm ∧ (toSim s).position = 0) := hnb
    have hcond2 : sm < lm ∧ (toSim s).position = 1 := ⟨hc, hs1⟩
    rw [if_neg hcond1, if_pos hcond2]
    rw [ht0] at hbal
    simp [toSim, hbal, ht0, hpv, hout]
  · have hcond1 : ¬ (sm > lm ∧ (toSim s).position = 0) := hnb
    have hcond2 : ¬ (sm < lm ∧ (toSim s).position = 1) := hnc
    rw [if_neg hcond1, if_neg hcond2]
    simp only [Option.some_bind]
    by_cases h1 : s.position = 1
    · have h1' : (toSim s).position = 1 := h1
      rw [hsame, if_pos h1] at hbal
      simp [toSim, h1, hbal, hsame, hpv, hout]
    · have h1' : ¬ (toSim s).position = 1 := h1
      rw [hsame, if_neg h1] at hbal
      simp [toSim, h1, hbal, hsame, hpv, hout]

theorem Strategy_calculateMovingAverages_eq (prices staleShort staleLong : List ℚ)
    (shortPeriod longPeriod : Int) :
    MovingAverageStrategy.calculateMovingAverages
        ⟨prices, staleShort, staleLong, shortPeriod, longPeriod⟩
      = some (readyStrategy prices shortPeriod longPeriod) := by
  unfold MovingAverageStrategy.calculateMovingAverages
  rw [MovingAverageStrategy.calculateMA_eq]
  simp only
  rw [pushLoop_eq _ _ (maValue prices shortPeriod) (maValue prices longPeriod)
      prices.length (fun i hi => calculateMA_isSome _ _ i hi)
      (fun i hi => calculateMA_isSome _ _ i hi)]
  rfl

/-- Invariant rule for the loop of `simulateStrategy` on freshly computed
averages with `longPeriod >= 1`: the loop succeeds and ends in the image of a
`runBacktest` loop state that satisfies every invariant kept by the step
relation. -/
theorem sim_loop_inv (self : MovingAverageStrategy.Strategy)
    (hS : self.shortMA = maSeries self.prices self.shortPeriod)
    (hL : self.longMA = maSeries self.prices self.longPeriod)
    (hlp : 1 ≤ self.longPeriod) (Inv : Nat → Backtester.LoopState → Prop)
    (h0 : Inv self.longPeriod.toNat Backtester.initialState)
    (hstep : ∀ (i : Nat) (s t : Backtester.LoopState) (d p : Backtester.StockData),
      self.longPeriod.toNat ≤ i → i < self.prices.length →
      self.prices[i]? = some d.close → self.prices[i - 1]? = some p.close →
      s.portfolioValue.length = i - self.longPeriod.toNat → Inv i s →
      Backtester.StepRel (maValue self.prices self.shortPeriod i)
        (maValue self.prices self.longPeriod i) d p self.longPeriod i s t →
      Inv (i + 1) t) :
    ∃ s, (List.foldlM (MovingAverageStrategy.simulateStep self)
            (toSim Backtester.initialState)
            (loopIndices self.longPeriod self.prices.length)) = some (toSim s)
      ∧ Inv (self.longPeriod.toNat + (self.prices.length - self.longPeriod.toNat)) s := by
  have hneg : ¬ self.longPeriod < 0 := by omega
  unfold loopIndices
  rw [if_neg hneg]
  obtain ⟨u, hu, s, hus, hI, _⟩ := foldlM_range'_inv
    (MovingAverageStrategy.simulateStep self)
    (fun i u => ∃ s, u = toSim s ∧ Inv i s
      ∧ s.portfolioValue.length = i - self.longPeriod.toNat)
    (self.prices.length - self.longPeriod.toNat) self.longPeriod.toNat
    (toSim Backtester.initialState)
    ⟨Backtester.initialState, rfl, h0, by simp [Backtester.initialState]⟩
    (by
      intro i u hlo hhi ⟨s, hus, hinv, hpv⟩
      have hin : i < self.prices.length := by omega
      have hi1 : 1 ≤ i := by omega
      have hsm := maSeries_getElem? self.prices self.shortPeriod i hin
      have hlm := maSeries_getElem? self.prices self.longPeriod i hin
      have hdi : (Backtester.seriesOf self.prices)[i]? = some
          { date := "", price := self.prices[i], close := self.prices[i],
            high := self.prices[i], low := self.prices[i], openPrice := self.prices[i],
            volume := 0 } := by
        rw [seriesOf_getElem?, List.getElem?_eq_getElem hin]; rfl
      have hpi : (Backtester.seriesOf self.prices)[i - 1]? = some
          { date := "", price := self.prices[i - 1], close := self.prices[i - 1],
            high := self.prices[i - 1], low := self.prices[i - 1],
            openPrice := self.prices[i - 1], volume := 0 } := by
        rw [seriesOf_getElem?, List.getElem?_eq_getElem (by omega : i - 1 < self.prices.length)]
        rfl
      obtain ⟨t, _, hrel⟩ := step_spec (Backtester.seriesOf self.prices)
        (maSeries self.prices self.shortPeriod) (maSeries self.prices self.longPeriod)
        self.longPeriod s i _ _ _ _ hsm hlm hdi hi1 hpi
        (by
          intro hgt hnil
          rw [hnil] at hpv
          simp at hpv
          omega)
      refine ⟨toSim t, ?_, t, rfl, ?_, ?_⟩
      · rw [hus]
        exact simulateStep_spec self i _ _ _ _ self.longPeriod s t (by rw [hS]; exact hsm)
          (by rw [hL]; exact hlm) (List.getElem?_eq_getElem hin) hi1
          (List.getElem?_eq_getElem (by omega)) hrel
      · exact hstep i s t _ _ hlo hin (List.getElem?_eq_getElem hin)
          (List.getElem?_eq_getElem (by omega)) hpv hinv hrel
      · rw [hrel.2.2.1, List.length_append, hpv]
        simp
        omega)
  exact ⟨s, by rw [hu, hus], hI⟩

/-! ## Whole runs -/

theorem head?_getLast?_of_ne_nil {α : Type} (l : List α) (h : l ≠ []) :
    ∃ first last, l.head? = some first ∧ l.getLast? = some last := by
  obtain ⟨a, ha⟩ := Option.isSome_iff_exists.mp (List.getLast?_isSome.mpr h)
  cases l with
  | nil => exact absurd rfl h
  | cons b t => exact ⟨b, a, rfl, ha⟩

/-- Invariant rule for a whole call of `Backtester.runBacktest` on non-empty data with
`longPeriod >= 1`: the call prints a report, and the report is taken from a
final loop state that satisfies every invariant kept by the step relation. -/
theorem runBacktest_inv (historicalData : List Backtester.StockData) (shortPeriod longPeriod : Int)
    (hne : historicalData ≠ []) (hlp : 1 ≤ longPeriod) (Inv : Nat → Backtester.LoopState → Prop)
    (h0 : Inv longPeriod.toNat Backtester.initialState)
    (hstep : ∀ (i : Nat) (s t : Backtester.LoopState) (d p : Backtester.StockData),
      longPeriod.toNat ≤ i → i < historicalData.length →
      historicalData[i]? = some d → historicalData[i - 1]? = some p →
      s.portfolioValue.length = i - longPeriod.toNat → Inv i s →
      Backtester.StepRel (maValue (closes historicalData) shortPeriod i)
        (maValue (closes historicalData) longPeriod i) d p longPeriod i s t →
      Inv (i + 1) t) :
    ∃ r s first last,
      Backtester.runBacktest historicalData shortPeriod longPeriod = Backtester.Outcome.done r
      ∧ Inv (longPeriod.toNat + (historicalData.length - longPeriod.toNat)) s
      ∧ historicalData.head? = some first ∧ historicalData.getLast? = some last
      ∧ r.initialBalance = 10000 ∧ r.balance = s.balance
      ∧ r.totalReturn = ((s.balance - 10000) / 10000) * 100
      ∧ r.trades = s.trades ∧ r.position = s.position ∧ r.output = s.output
      ∧ r.portfolioValue = s.portfolioValue ∧ r.returns = s.returns
      ∧ r.buyAndHoldFinalBalance = 10000 * (last.close / first.close)
      ∧ r.buyAndHoldReturn = ((last.close - first.close) / first.close) * 100 := by
  obtain ⟨first, last, hfirst, hlast⟩ := head?_getLast?_of_ne_nil historicalData hne
  obtain ⟨s, hs, hI, _⟩ := loop_inv historicalData shortPeriod longPeriod hlp Inv h0 hstep
    historicalData.length
  have hmin : min historicalData.length (historicalData.length - longPeriod.toNat)
      = historicalData.length - longPeriod.toNat := by omega
  rw [hmin] at hI
  obtain ⟨r, hr, hrest⟩ := runBacktest_done historicalData shortPeriod longPeriod first last s
    hfirst hlast hs
  exact ⟨r, s, first, last, hr, hI, hfirst, hlast, hrest⟩

/-- C3: for every non-empty series and every pair of periods `>= 1`,
`runBacktest` finishes and the trades it prints strictly alternate (no two
neighbouring trades have the same action) and start with a BUY; the same holds
for `simulateStrategy` on any prices once the averages have been computed.
On empty data `runBacktest` returns early and prints no trade. -/
theorem C3_trades_alternate (historicalData : List Backtester.StockData) (prices : List ℚ)
    (shortPeriod longPeriod : Int) (hne : historicalData ≠ [])
    (hsp : 1 ≤ shortPeriod) (hlp : 1 ≤ longPeriod) :
    (∃ r, Backtester.runBacktest historicalData shortPeriod longPeriod
            = Backtester.Outcome.done r
        ∧ Alternates (r.output.map fun x => x.action))
    ∧ MovingAverageStrategy.calculateMovingAverages ⟨prices, [], [], shortPeriod, longPeriod⟩
        = some (readyStrategy prices shortPeriod longPeriod)
    ∧ (∃ r, MovingAverageStrategy.simulateStrategy (readyStrategy prices shortPeriod longPeriod)
            = some r
        ∧ Alternates (r.final.output.map fun x => x.action))
    ∧ Backtester.runBacktest [] shortPeriod longPeriod = Backtester.Outcome.noData := by
  have _ := hsp
  refine ⟨?_, Strategy_calculateMovingAverages_eq _ _ _ _ _, ?_, rfl⟩
  · obtain ⟨r, s, _, _, hr, ⟨hact, _⟩, _, _, _, _, _, _, _, hout, _⟩ :=
      runBacktest_inv historicalData shortPeriod longPeriod hne hlp
        (fun _ s => s.output.map (fun x => x.action) = alternating s.output.length
          ∧ s.position = ((s.output.length % 2 : Nat) : Int))
        ⟨rfl, rfl⟩
        (fun i s t d p _ _ _ _ _ hinv hrel => alternation_step _ _ d p longPeriod i s t hinv hrel)
    refine ⟨r, hr, ?_⟩
    rw [hout, hact]
    exact alternates_alternating _
  · obtain ⟨s, hs, hact, _⟩ := sim_loop_inv (readyStrategy prices shortPeriod longPeriod)
      rfl rfl hlp
      (fun _ s => s.output.map (fun x => x.action) = alternating s.output.length
        ∧ s.position = ((s.output.length % 2 : Nat) : Int))
      ⟨rfl, rfl⟩
      (fun i s t d p _ _ _ _ _ hinv hrel => alternation_step _ _ d p longPeriod i s t hinv hrel)
    have hs' : List.foldlM (MovingAverageStrategy.simulateStep
          (readyStrategy prices shortPeriod longPeriod))
        { balance := 10000, position := 0, portfolioValue := [], output := [] }
        (loopIndices (readyStrategy prices shortPeriod longPeriod).longPeriod
          (readyStrategy prices shortPeriod longPeriod).prices.length) = some (toSim s) := hs
    refine ⟨_, by unfold MovingAverageStrategy.simulateStrategy; rw [hs']; rfl, ?_⟩
    have : (toSim s).output.map (fun x => x.action) = s.output.map (fun x => x.action) := by
      simp [toSim, List.map_map, Function.comp_def]
    show Alternates ((toSim s).output.map fun x => x.action)
    rw [this, hact]
    exact alternates_alternating _

/-- C3 at the closes `1, 2, 3, 2, 1, 2, 3` with periods 1 and 2, where the run
prints BUY, SELL, BUY. -/
theorem C3_trades_alternate_witness :
    (Backtester.seriesOf [1, 2, 3, 2, 1, 2, 3] ≠ [] ∧ (1 : Int) ≤ 1 ∧ (1 : Int) ≤ 2)
      ∧ (∃ r, Backtester.runBacktest (Backtester.seriesOf [1, 2, 3, 2, 1, 2, 3]) 1 2
            = Backtester.Outcome.done r
          ∧ Alternates (r.output.map fun x => x.action)) :=
  ⟨by decide!,
   (C3_trades_alternate (Backtester.seriesOf [1, 2, 3, 2, 1, 2, 3]) [1, 2, 3, 2, 1, 2, 3] 1 2
      (by decide!) (by decide) (by decide)).1⟩

/-- With equal periods the two averages coincide at every index, so an
iteration that starts flat with no trade stays so and keeps the balance. -/
theorem flat_step (m : ℚ) (d p : Backtester.StockData) (longPeriod : Int) (i : Nat)
    (s t : Backtester.LoopState)
    (hinv : s.position = 0 ∧ s.trades = 0 ∧ s.output = [] ∧ s.balance = 10000
      ∧ ∀ v ∈ s.portfolioValue, v = (10000 : ℚ))
    (hrel : Backtester.StepRel m m d p longPeriod i s t) :
    t.position = 0 ∧ t.trades = 0 ∧ t.output = [] ∧ t.balance = 10000
      ∧ ∀ v ∈ t.portfolioValue, v = (10000 : ℚ) := by
  obtain ⟨hpos, htr, hout, hbal, hpv⟩ := hinv
  obtain ⟨hcase, hb, hp, _, _⟩ := hrel
  rcases hcase with ⟨hgt, _⟩ | ⟨_, hlt, _⟩ | ⟨_, _, hsame, htr', hout'⟩
  · exact absurd hgt (lt_irrefl m)
  · exact absurd hlt (lt_irrefl m)
  · have ht0 : t.position = 0 := by rw [hsame, hpos]
    have hne : ¬ t.position = 1 := by rw [ht0]; decide
    rw [if_neg hne, hbal] at hb
    refine ⟨ht0, by rw [htr', htr], by rw [hout', hout], hb, ?_⟩
    intro v hv
    rw [hp, List.mem_append, List.mem_singleton] at hv
    rcases hv with hv | hv
    · exact hpv v hv
    · rw [hv, hb]

/-- C4: for every non-empty series and every period `P >= 1`, `runBacktest`
with `shortPeriod = longPeriod = P` prints no trade: after any number of
iterations the position is `0` and the trade count is `0`, and the report has
trade count `0`, no trade line, final position `0`, a final balance equal to
the initial balance, and a trajectory that is constantly the initial balance. -/
theorem C4_equal_periods_no_trades (historicalData : List Backtester.StockData) (P : Int)
    (hne : historicalData ≠ []) (hP : 1 ≤ P) :
    (∀ k : Nat, ∃ s, Backtester.loopStateAfter historicalData P P k = some s
        ∧ s.position = 0 ∧ s.trades = 0 ∧ s.output = [])
    ∧ (∃ r, Backtester.runBacktest historicalData P P = Backtester.Outcome.done r
        ∧ r.trades = 0 ∧ r.output = [] ∧ r.position = 0
        ∧ r.balance = r.initialBalance
        ∧ (∀ v ∈ r.portfolioValue, v = r.initialBalance)) := by
  constructor
  · intro k
    obtain ⟨s, hs, ⟨hpos, htr, hout, _⟩, _⟩ := loop_inv historicalData P P hP
      (fun _ s => s.position = 0 ∧ s.trades = 0 ∧ s.output = [] ∧ s.balance = 10000
        ∧ ∀ v ∈ s.portfolioValue, v = (10000 : ℚ))
      ⟨rfl, rfl, rfl, rfl, by simp [Backtester.initialState]⟩
      (fun i s t d p _ _ _ _ _ hinv hrel => flat_step _ d p P i s t hinv hrel) k
    exact ⟨s, hs, hpos, htr, hout⟩
  · obtain ⟨r, s, _, _, hr, ⟨hpos, htr, hout, hbal, hpv⟩, _, _, hinit, hrbal, _, hrtr, hrpos,
      hrout, hrpv, _⟩ := runBacktest_inv historicalData P P hne hP
      (fun _ s => s.position = 0 ∧ s.trades = 0 ∧ s.output = [] ∧ s.balance = 10000
        ∧ ∀ v ∈ s.portfolioValue, v = (10000 : ℚ))
      ⟨rfl, rfl, rfl, rfl, by simp [Backtester.initialState]⟩
      (fun i s t d p _ _ _ _ _ hinv hrel => flat_step _ d p P i s t hinv hrel)
    refine ⟨r, hr, by rw [hrtr, htr], by rw [hrout, hout], by rw [hrpos, hpos],
      by rw [hrbal, hbal, hinit], ?_⟩
    intro v hv
    rw [hrpv] at hv
    rw [hinit]
    exact hpv v hv

/-- C4 at the closes `3, 1, 4, 1, 5, 9` with both periods 2. -/
theorem C4_equal_periods_no_trades_witness :
    (Backtester.seriesOf [3, 1, 4, 1, 5, 9] ≠ [] ∧ (1 : Int) ≤ 2)
      ∧ (∃ r, Backtester.runBacktest (Backtester.seriesOf [3, 1, 4, 1, 5, 9]) 2 2
            = Backtester.Outcome.done r
          ∧ r.trades = 0 ∧ r.output = [] ∧ r.position = 0
          ∧ r.balance = r.initialBalance
          ∧ (∀ v ∈ r.portfolioValue, v = r.initialBalance)) :=
  ⟨by decide!,
   (C4_equal_periods_no_trades (Backtester.seriesOf [3, 1, 4, 1, 5, 9]) 2
      (by decide!) (by decide)).2⟩

/-! ## One iteration inside a run -/

theorem loopStateAfter_succ (historicalData : List Backtester.StockData) (shortPeriod longPeriod : Int)
    (hlp : 0 ≤ longPeriod) (k : Nat) (hk : k < historicalData.length - longPeriod.toNat) :
    Backtester.loopStateAfter historicalData shortPeriod longPeriod (k + 1)
      = (Backtester.loopStateAfter historicalData shortPeriod longPeriod k).bind fun s =>
          Backtester.step historicalData (maSeries (closes historicalData) shortPeriod)
            (maSeries (closes historicalData) longPeriod) longPeriod s (longPeriod.toNat + k) := by
  have hneg : ¬ longPeriod < 0 := by omega
  unfold Backtester.loopStateAfter Backtester.stateAfter loopIndices
  rw [if_neg hneg, take_range', take_range']
  have h1 : min (k + 1) (historicalData.length - longPeriod.toNat) = k + 1 := by omega
  have h2 : min k (historicalData.length - longPeriod.toNat) = k := by omega
  rw [h1, h2, List.range'_concat, List.foldlM_append]
  simp

/-- In a run with `longPeriod >= 1`, iteration number `k` (at index
`longPeriod + k`) exists for every `k` below the number of evaluated indices,
and takes the state before it to the state after it by the step relation. -/
theorem loop_step_rel (historicalData : List Backtester.StockData) (shortPeriod longPeriod : Int)
    (hlp : 1 ≤ longPeriod) (k : Nat) (hk : k < historicalData.length - longPeriod.toNat) :
    ∃ s t d p, Backtester.loopStateAfter historicalData shortPeriod longPeriod k = some s
      ∧ Backtester.loopStateAfter historicalData shortPeriod longPeriod (k + 1) = some t
      ∧ historicalData[longPeriod.toNat + k]? = some d
      ∧ historicalData[longPeriod.toNat + k - 1]? = some p
      ∧ Backtester.StepRel (maValue (closes historicalData) shortPeriod (longPeriod.toNat + k))
          (maValue (closes historicalData) longPeriod (longPeriod.toNat + k)) d p longPeriod
          (longPeriod.toNat + k) s t := by
  obtain ⟨s, hs, _, hlen⟩ := loop_inv historicalData shortPeriod longPeriod hlp
    (fun _ _ => True) trivial (fun _ _ _ _ _ _ _ _ _ _ _ _ => trivial) k
  have hmin : min k (historicalData.length - longPeriod.toNat) = k := by omega
  rw [hmin] at hlen
  have hin : longPeriod.toNat + k < historicalData.length := by omega
  have hcl : longPeriod.toNat + k < (closes historicalData).length := by
    simpa [closes] using hin
  obtain ⟨t, ht, hrel⟩ := step_spec historicalData
    (maSeries (closes historicalData) shortPeriod)
    (maSeries (closes historicalData) longPeriod) longPeriod s (longPeriod.toNat + k)
    _ _ historicalData[longPeriod.toNat + k] (historicalData[longPeriod.toNat + k - 1])
    (maSeries_getElem? _ _ _ hcl) (maSeries_getElem? _ _ _ hcl)
    (List.getElem?_eq_getElem hin) (by omega) (List.getElem?_eq_getElem (by omega))
    (by
      intro hgt hnil
      rw [hnil] at hlen
      simp at hlen
      omega)
  refine ⟨s, t, _, _, hs, ?_, List.getElem?_eq_getElem hin,
    List.getElem?_eq_getElem (by omega), hrel⟩
  rw [loopStateAfter_succ historicalData shortPeriod longPeriod (by omega) k hk, hs]
  exact ht

/-- C5 fails as stated: on the closes `1, 1, 2` with `shortPeriod = 1` and
`longPeriod = 2` the loop is flat with balance `10000` before index `2`; a BUY
fires at index `2`, and the value recorded at index `2` is `20000`, the balance
multiplied by `close[2] / close[1]`, not the previous balance. -/
theorem C5_entry_period_counterexample :
    Backtester.loopStateAfter (Backtester.seriesOf [1, 1, 2]) 1 2 0
        = some ⟨10000, 0, [], [], 0, []⟩
      ∧ Backtester.loopStateAfter (Backtester.seriesOf [1, 1, 2]) 1 2 1
        = some ⟨20000, 1, [20000], [], 1, [⟨2, "", TradeAction.BUY, 2⟩]⟩ := by
  decide!

/-- C5 as amended: in every run over positive closes with periods `>= 1`, the
iteration at an evaluated index `i = longPeriod + k` appends to the trajectory
the value determined by the position held after the transition decided at `i`:
the previous balance times `close[i] / close[i-1]` when that position is `1`,
the previous balance otherwise.  So at an index where a BUY fires the recorded
value is the previous balance times `close[i] / close[i-1]`, and at an index
where a SELL fires it is the previous balance. -/
theorem C5_transition_applies_at_its_index (historicalData : List Backtester.StockData)
    (shortPeriod longPeriod : Int) (hpos : ∀ d ∈ historicalData, 0 < d.close)
    (hsp : 1 ≤ shortPeriod) (hlp : 1 ≤ longPeriod) (k : Nat)
    (hk : k < historicalData.length - longPeriod.toNat) :
    ∃ s t d p, Backtester.loopStateAfter historicalData shortPeriod longPeriod k = some s
      ∧ Backtester.loopStateAfter historicalData shortPeriod longPeriod (k + 1) = some t
      ∧ historicalData[longPeriod.toNat + k]? = some d
      ∧ historicalData[longPeriod.toNat + k - 1]? = some p
      ∧ t.portfolioValue = s.portfolioValue ++
          [if t.position = 1 then s.balance * (d.close / p.close) else s.balance]
      ∧ (t.output = s.output ++ [⟨longPeriod.toNat + k, d.date, TradeAction.BUY, d.close⟩] →
          t.portfolioValue = s.portfolioValue ++ [s.balance * (d.close / p.close)])
      ∧ (t.output = s.output ++ [⟨longPeriod.toNat + k, d.date, TradeAction.SELL, d.close⟩] →
          t.portfolioValue = s.portfolioValue ++ [s.balance]) := by
  have _ := hpos
  have _ := hsp
  obtain ⟨s, t, d, p, hs, ht, hd, hp, hcase, hbal, hpv, _, _⟩ :=
    loop_step_rel historicalData shortPeriod longPeriod hlp k hk
  have hpv' : t.portfolioValue = s.portfolioValue ++
      [if t.position = 1 then s.balance * (d.close / p.close) else s.balance] := by
    rw [hpv, hbal]
  refine ⟨s, t, d, p, hs, ht, hd, hp, hpv', ?_, ?_⟩
  · intro hbuy
    rcases hcase with ⟨_, _, ht1, _, _⟩ | ⟨_, _, _, _, _, hout⟩ | ⟨_, _, _, _, hout⟩
    · rw [hpv', if_pos ht1]
    · rw [hout] at hbuy
      have := List.append_cancel_left hbuy
      simp at this
    · rw [hout] at hbuy
      have := congrArg List.length hbuy
      simp at this
  · intro hsell
    rcases hcase with ⟨_, _, _, _, hout⟩ | ⟨_, _, _, ht0, _, _⟩ | ⟨_, _, _, _, hout⟩
    · rw [hout] at hsell
      have := List.append_cancel_left hsell
      simp at this
    · have hne : ¬ t.position = 1 := by rw [ht0]; decide
      rw [hpv', if_neg hne]
    · rw [hout] at hsell
      have := congrArg List.length hsell
      simp at this

/-- C5 as amended, at the closes `1, 1, 2` with periods 1 and 2 and the first
iteration (index 2), where the BUY fires. -/
theorem C5_transition_applies_at_its_index_witness :
    ((∀ d ∈ Backtester.seriesOf [1, 1, 2], 0 < d.close) ∧ (1 : Int) ≤ 1 ∧ (1 : Int) ≤ 2
        ∧ 0 < (Backtester.seriesOf [1, 1, 2]).length - (2 : Int).toNat)
      ∧ (∃ s t d p, Backtester.loopStateAfter (Backtester.seriesOf [1, 1, 2]) 1 2 0 = some s
        ∧ Backtester.loopStateAfter (Backtester.seriesOf [1, 1, 2]) 1 2 (0 + 1) = some t
        ∧ (Backtester.seriesOf [1, 1, 2])[(2 : Int).toNat + 0]? = some d
        ∧ (Backtester.seriesOf [1, 1, 2])[(2 : Int).toNat + 0 - 1]? = some p
        ∧ t.portfolioValue = s.portfolioValue ++
            [if t.position = 1 then s.balance * (d.close / p.close) else s.balance]
        ∧ (t.output = s.output ++ [⟨(2 : Int).toNat + 0, d.date, TradeAction.BUY, d.close⟩] →
            t.portfolioValue = s.portfolioValue ++ [s.balance * (d.close / p.close)])
        ∧ (t.output = s.output ++ [⟨(2 : Int).toNat + 0, d.date, TradeAction.SELL, d.close⟩] →
            t.portfolioValue = s.portfolioValue ++ [s.balance])) :=
  ⟨by decide!,
   C5_transition_applies_at_its_index (Backtester.seriesOf [1, 1, 2]) 1 2 (by decide!)
     (by decide) (by decide) 0 (by decide!)⟩

/-! ## The two end-to-end scenarios -/

/-- C6 fails as stated: on the closes `100, 101, ..., 124` with periods 5 and
20 the short average already exceeds the long one at index 19 (`117 > 219/2`),
yet the loop starts at index `longPeriod = 20`, so no trade carries index 19:
the only trade printed is the BUY at index 20. -/
theorem C6_rising_scenario_counterexample :
    maValue (closes (Backtester.seriesOf risingCloses)) 5 19
        = 117
      ∧ maValue (closes (Backtester.seriesOf risingCloses)) 20 19
        = 219 / 2
      ∧ loopIndices 20 25 = [20, 21, 22, 23, 24]
      ∧ ∃ r, Backtester.runBacktest
            (Backtester.seriesOf risingCloses) 5 20
          = Backtester.Outcome.done r
        ∧ r.output = [⟨20, "", TradeAction.BUY, 120⟩]
        ∧ ∀ t ∈ r.output, t.index ≠ 19 := by
  refine ⟨by decide!, by decide!, by decide!, ?_⟩
  refine ⟨⟨10000, 1240000 / 119, 500 / 119, 1, 398547 / 48419360,
    121068083 / 21099909805286400, 12400, 24, 1,
    [1200000 / 119, 1210000 / 119, 1220000 / 119, 1230000 / 119, 1240000 / 119],
    [1 / 120, 1 / 121, 1 / 122, 1 / 123], [⟨20, "", TradeAction.BUY, 120⟩]⟩,
    by decide!, by decide!, by decide!⟩

/-- C6 as amended: on the closes `100, 101, ..., 124` with `shortPeriod = 5` and
`longPeriod = 20`, `runBacktest` prints exactly one trade, a BUY at index 20
(the first index the loop evaluates, `longPeriod`) at price 120, prints no
SELL, ends with position `1`, and the final balance `1240000/119` is strictly
greater than the initial balance `10000`. -/
theorem C6_rising_scenario_buy_at_20 :
    ∃ r, Backtester.runBacktest
          (Backtester.seriesOf risingCloses) 5 20
        = Backtester.Outcome.done r
      ∧ r.output = [⟨20, "", TradeAction.BUY, 120⟩]
      ∧ r.trades = 1
      ∧ (∀ t ∈ r.output, t.action ≠ TradeAction.SELL)
      ∧ r.position = 1
      ∧ r.initialBalance = 10000
      ∧ r.balance = 1240000 / 119
      ∧ r.balance > r.initialBalance := by
  refine ⟨⟨10000, 1240000 / 119, 500 / 119, 1, 398547 / 48419360,
    121068083 / 21099909805286400, 12400, 24, 1,
    [1200000 / 119, 1210000 / 119, 1220000 / 119, 1230000 / 119, 1240000 / 119],
    [1 / 120, 1 / 121, 1 / 122, 1 / 123], [⟨20, "", TradeAction.BUY, 120⟩]⟩,
    by decide!, by decide!, by decide!, by decide!, by decide!, by decide!, by decide!,
    by decide!⟩

/-- C8: for every non-empty series with first close `> 0` and all periods
`>= 1`, `runBacktest` reports the buy-and-hold final balance
`initialBalance * lastClose / firstClose`, taken from the first and the last
element of the whole series; two runs with different periods report the same
value, so it does not depend on the trades. -/
theorem C8_buy_and_hold (historicalData : List Backtester.StockData)
    (first last : Backtester.StockData) (shortPeriod longPeriod shortPeriod2 longPeriod2 : Int)
    (hfirst : historicalData.head? = some first) (hlast : historicalData.getLast? = some last)
    (hpos : 0 < first.close) (hsp : 1 ≤ shortPeriod) (hlp : 1 ≤ longPeriod)
    (hsp2 : 1 ≤ shortPeriod2) (hlp2 : 1 ≤ longPeriod2) :
    ∃ r r2, Backtester.runBacktest historicalData shortPeriod longPeriod
          = Backtester.Outcome.done r
      ∧ Backtester.runBacktest historicalData shortPeriod2 longPeriod2
          = Backtester.Outcome.done r2
      ∧ r.buyAndHoldFinalBalance = r.initialBalance * last.close / first.close
      ∧ r.initialBalance = 10000
      ∧ r2.buyAndHoldFinalBalance = r.buyAndHoldFinalBalance := by
  have _ := hpos
  have _ := hsp
  have _ := hsp2
  have hne : historicalData ≠ [] := by
    intro h; rw [h] at hfirst; simp at hfirst
  obtain ⟨r, _, f, l, hr, _, hf, hl, hinit, _, _, _, _, _, _, _, hbh, _⟩ :=
    runBacktest_inv historicalData shortPeriod longPeriod hne hlp (fun _ _ => True) trivial
      (fun _ _ _ _ _ _ _ _ _ _ _ _ => trivial)
  obtain ⟨r2, _, f2, l2, hr2, _, hf2, hl2, _, _, _, _, _, _, _, _, hbh2, _⟩ :=
    runBacktest_inv historicalData shortPeriod2 longPeriod2 hne hlp2 (fun _ _ => True) trivial
      (fun _ _ _ _ _ _ _ _ _ _ _ _ => trivial)
  rw [hfirst] at hf hf2
  rw [hlast] at hl hl2
  cases Option.some.inj hf
  cases Option.some.inj hf2
  cases Option.some.inj hl
  cases Option.some.inj hl2
  refine ⟨r, r2, hr, hr2, ?_, hinit, ?_⟩
  · rw [hbh, hinit, mul_div_assoc]
  · rw [hbh2, hbh]

/-- C8 at the closes `4, 2, 3, 1, 5, 6`: the runs with periods (1, 2) and (2, 3)
trade differently and both report the buy-and-hold balance `10000 * 6 / 4`. -/
theorem C8_buy_and_hold_witness :
    ((Backtester.seriesOf [4, 2, 3, 1, 5, 6]).head? = some ⟨"", 4, 4, 4, 4, 4, 0⟩
        ∧ (Backtester.seriesOf [4, 2, 3, 1, 5, 6]).getLast? = some ⟨"", 6, 6, 6, 6, 6, 0⟩
        ∧ (0 : ℚ) < 4 ∧ (1 : Int) ≤ 1 ∧ (1 : Int) ≤ 2 ∧ (1 : Int) ≤ 2 ∧ (1 : Int) ≤ 3)
      ∧ (∃ r r2, Backtester.runBacktest (Backtester.seriesOf [4, 2, 3, 1, 5, 6]) 1 2
            = Backtester.Outcome.done r
          ∧ Backtester.runBacktest (Backtester.seriesOf [4, 2, 3, 1, 5, 6]) 2 3
            = Backtester.Outcome.done r2
          ∧ r.buyAndHoldFinalBalance = r.initialBalance * 6 / 4
          ∧ r.initialBalance = 10000
          ∧ r2.buyAndHoldFinalBalance = r.buyAndHoldFinalBalance) :=
  ⟨⟨by decide!, by decide!, by decide!, by decide, by decide, by decide, by decide⟩,
   C8_buy_and_hold (Backtester.seriesOf [4, 2, 3, 1, 5, 6]) ⟨"", 4, 4, 4, 4, 4, 0⟩
     ⟨"", 6, 6, 6, 6, 6, 0⟩ 1 2 2 3 (by decide!) (by decide!) (by decide!) (by decide)
     (by decide) (by decide) (by decide)⟩

/-! ## Monte Carlo aggregation -/

theorem castToInt_eq_floor (x : ℚ) (hx : 0 ≤ x) : MovingAverageStrategy.castToInt x = ⌊x⌋ := by
  unfold MovingAverageStrategy.castToInt
  rw [Int.tdiv_eq_ediv (Rat.num_nonneg.mpr hx) (Int.natCast_nonneg _), Rat.floor_def]

theorem getElem?_some_of_lt {α : Type} (l : List α) (i : Nat) (h : i < l.length) :
    ∃ x, l[i]? = some x :=
  ⟨l[i], List.getElem?_eq_getElem h⟩

theorem vecAt_of_nonneg {α : Type} (v : List α) (j : Int) (hj : 0 ≤ j) :
    vecAt v j = v[j.toNat]? := by
  unfold vecAt
  rw [if_neg (by omega)]

theorem floor_scaled_toNat_lt (n : Nat) (hn : 1 ≤ n) (q : ℚ) (hq0 : 0 ≤ q) (hq1 : q < 1) :
    0 ≤ ⌊(n : ℚ) * q⌋ ∧ ⌊(n : ℚ) * q⌋.toNat < n := by
  have hn0 : (0 : ℚ) < (n : ℚ) := by exact_mod_cast hn
  have h0 : 0 ≤ (n : ℚ) * q := mul_nonneg hn0.le hq0
  have hfl : 0 ≤ ⌊(n : ℚ) * q⌋ := Int.floor_nonneg.mpr h0
  refine ⟨hfl, ?_⟩
  have hlt : ⌊(n : ℚ) * q⌋ < (n : Int) := by
    rw [Int.floor_lt]
    have : (n : ℚ) * q < (n : ℚ) * 1 := mul_lt_mul_of_pos_left hq1 hn0
    simpa using this
  omega

/-- On `n >= 1` collected returns the aggregation succeeds, and each printed
figure is the stated function of the ascending sort of the returns. -/
theorem aggregate_spec (returns : List ℚ) (hn : 1 ≤ returns.length) :
    ∃ m, MovingAverageStrategy.aggregate (returns.length : Int) returns = some m
      ∧ m.avg_return = (returns.insertionSort (fun a b => a ≤ b)).sum / (returns.length : ℚ)
      ∧ (returns.insertionSort (fun a b => a ≤ b))[returns.length / 2]? = some m.median_return
      ∧ (returns.insertionSort (fun a b => a ≤ b)).head? = some m.min_return
      ∧ (returns.insertionSort (fun a b => a ≤ b)).getLast? = some m.max_return
      ∧ (returns.insertionSort (fun a b => a ≤ b))[⌊(returns.length : ℚ) * 0.95⌋.toNat]?
          = some m.percentile_95
      ∧ (returns.insertionSort (fun a b => a ≤ b))[⌊(returns.length : ℚ) * 0.05⌋.toNat]?
          = some m.percentile_5 := by
  have hlen : (returns.insertionSort (fun a b => a ≤ b)).length = returns.length :=
    List.length_insertionSort _ _
  have hn0 : (0 : ℚ) ≤ (returns.length : ℚ) := by positivity
  obtain ⟨h95a, h95b⟩ := floor_scaled_toNat_lt returns.length hn 0.95 (by norm_num) (by norm_num)
  obtain ⟨h5a, h5b⟩ := floor_scaled_toNat_lt returns.length hn 0.05 (by norm_num) (by norm_num)
  obtain ⟨med, hmed⟩ := getElem?_some_of_lt (returns.insertionSort (fun a b => a ≤ b))
    (returns.length / 2) (by omega)
  obtain ⟨p95, hp95⟩ := getElem?_some_of_lt (returns.insertionSort (fun a b => a ≤ b))
    (⌊(returns.length : ℚ) * 0.95⌋.toNat) (by omega)
  obtain ⟨p5, hp5⟩ := getElem?_some_of_lt (returns.insertionSort (fun a b => a ≤ b))
    (⌊(returns.length : ℚ) * 0.05⌋.toNat) (by omega)
  have hne : returns.insertionSort (fun a b => a ≤ b) ≠ [] := by
    intro h; rw [h] at hlen; simp at hlen; omega
  obtain ⟨mn, mx, hmn, hmx⟩ := head?_getLast?_of_ne_nil _ hne
  have hvmed : vecAt (returns.insertionSort (fun a b => a ≤ b))
      (Int.tdiv (returns.length : Int) 2) = some med := by
    rw [show Int.tdiv (returns.length : Int) 2 = ((returns.length / 2 : Nat) : Int) from rfl,
      vecAt_of_nonneg _ _ (Int.natCast_nonneg _), Int.toNat_ofNat, hmed]
  have hv95 : vecAt (returns.insertionSort (fun a b => a ≤ b))
      (MovingAverageStrategy.castToInt ((returns.length : ℚ) * 0.95)) = some p95 := by
    rw [castToInt_eq_floor _ (mul_nonneg hn0 (by norm_num)), vecAt_of_nonneg _ _ h95a, hp95]
  have hv5 : vecAt (returns.insertionSort (fun a b => a ≤ b))
      (MovingAverageStrategy.castToInt ((returns.length : ℚ) * 0.05)) = some p5 := by
    rw [castToInt_eq_floor _ (mul_nonneg hn0 (by norm_num)), vecAt_of_nonneg _ _ h5a, hp5]
  unfold MovingAverageStrategy.aggregate
  simp only [Int.cast_natCast, hvmed, hmn, hmx, hv95, hv5, Option.some_bind]
  exact ⟨_, rfl, by rw [List.sum_eq_foldl], hmed, rfl, rfl, hp95, hp5⟩

theorem sorted_head?_le (l : List ℚ) (a : ℚ) (hs : l.Sorted (fun a b => a ≤ b))
    (ha : l.head? = some a) : a ∈ l ∧ ∀ x ∈ l, a ≤ x := by
  cases l with
  | nil => simp at ha
  | cons b t =>
    simp only [List.head?_cons, Option.some.injEq] at ha
    subst ha
    refine ⟨List.mem_cons_self _ _, ?_⟩
    intro x hx
    rcases List.mem_cons.mp hx with h | h
    · rw [h]
    · exact List.rel_of_sorted_cons hs x h

theorem sorted_le_getLast? (l : List ℚ) (a : ℚ) (hs : l.Sorted (fun a b => a ≤ b))
    (ha : l.getLast? = some a) : a ∈ l ∧ ∀ x ∈ l, x ≤ a := by
  have hmem : a ∈ l := List.mem_of_mem_getLast? ha
  refine ⟨hmem, ?_⟩
  have hsplit : l.dropLast ++ [a] = l := List.dropLast_append_getLast? a ha
  intro x hx
  rw [← hsplit] at hx hs
  rcases List.mem_append.mp hx with h | h
  · exact (List.pairwise_append.mp hs).2.2 x h a (List.mem_singleton_self a)
  · rw [List.mem_singleton.mp h]

theorem sorted_eq_insertionSort (returns sorted : List ℚ)
    (hsorted : sorted.Sorted (fun a b => a ≤ b)) (hperm : sorted.Perm returns) :
    returns.insertionSort (fun a b => a ≤ b) = sorted :=
  List.eq_of_perm_of_sorted ((List.perm_insertionSort _ returns).trans hperm.symm)
    (List.sorted_insertionSort _ returns) hsorted

/-- C9: for every list of `n >= 1` trial returns the aggregation succeeds and
the median it reports is `sorted[n / 2]` (integer division), where `sorted` is
the ascending arrangement of the returns; for even `n = 2k` that is
`sorted[k]`, the upper of the two middle elements `sorted[k-1]`, `sorted[k]`. -/
theorem C9_median_upper_middle (returns sorted : List ℚ) (hn : 1 ≤ returns.length)
    (hsorted : sorted.Sorted (fun a b => a ≤ b)) (hperm : sorted.Perm returns) :
    ∃ m, MovingAverageStrategy.aggregate (returns.length : Int) returns = some m
      ∧ sorted[returns.length / 2]? = some m.median_return
      ∧ (∀ k : Nat, returns.length = 2 * k → sorted[k]? = some m.median_return) := by
  obtain ⟨m, hm, _, hmed, _⟩ := aggregate_spec returns hn
  rw [sorted_eq_insertionSort returns sorted hsorted hperm] at hmed
  refine ⟨m, hm, hmed, ?_⟩
  intro k hk
  have : returns.length / 2 = k := by omega
  rw [← this]
  exact hmed

/-- C9 at the fixture whose sorted order is `[-5, -1, 2, 8]`: the median
reported is `2`, not the average `1/2` of the two middle elements. -/
theorem C9_median_upper_middle_witness :
    (1 ≤ ([2, -5, 8, -1] : List ℚ).length
        ∧ ([-5, -1, 2, 8] : List ℚ).Sorted (fun a b => a ≤ b)
        ∧ ([-5, -1, 2, 8] : List ℚ).Perm [2, -5, 8, -1])
      ∧ (∃ m, MovingAverageStrategy.aggregate 4 [2, -5, 8, -1] = some m
          ∧ m.median_return = 2 ∧ m.median_return ≠ (-1 + 2) / 2) := by
  have hs : ([-5, -1, 2, 8] : List ℚ).Sorted (fun a b => a ≤ b) := by
    norm_num [List.Sorted]
  have hp : ([-5, -1, 2, 8] : List ℚ).Perm [2, -5, 8, -1] := by decide!
  refine ⟨⟨by decide, hs, hp⟩, ?_⟩
  obtain ⟨m, hm, hmed, _⟩ :=
    C9_median_upper_middle [2, -5, 8, -1] [-5, -1, 2, 8] (by decide) hs hp
  have h2 : m.median_return = 2 := by
    have : ([-5, -1, 2, 8] : List ℚ)[([2, -5, 8, -1] : List ℚ).length / 2]? = some 2 := rfl
    rw [this] at hmed
    exact (Option.some.inj hmed).symm
  refine ⟨m, hm, h2, ?_⟩
  rw [h2]
  norm_num

/-- C10: for every list of `n >= 1` trial returns the aggregation succeeds and
reports `avg = (sum of the returns) / n`, `worst` = the minimum, `best` = the
maximum, `p95 = sorted[floor(n * 0.95)]` and `p5 = sorted[floor(n * 0.05)]`,
where `sorted` is the ascending permutation of the returns. -/
theorem C10_aggregate_statistics (returns sorted : List ℚ) (hn : 1 ≤ returns.length)
    (hsorted : sorted.Sorted (fun a b => a ≤ b)) (hperm : sorted.Perm returns) :
    ∃ m, MovingAverageStrategy.aggregate (returns.length : Int) returns = some m
      ∧ m.avg_return = returns.sum / (returns.length : ℚ)
      ∧ (m.min_return ∈ returns ∧ ∀ x ∈ returns, m.min_return ≤ x)
      ∧ (m.max_return ∈ returns ∧ ∀ x ∈ returns, x ≤ m.max_return)
      ∧ sorted[⌊(returns.length : ℚ) * 0.95⌋.toNat]? = some m.percentile_95
      ∧ sorted[⌊(returns.length : ℚ) * 0.05⌋.toNat]? = some m.percentile_5 := by
  obtain ⟨m, hm, havg, _, hmin, hmax, h95, h5⟩ := aggregate_spec returns hn
  rw [sorted_eq_insertionSort returns sorted hsorted hperm] at havg hmin hmax h95 h5
  obtain ⟨hmn1, hmn2⟩ := sorted_head?_le sorted _ hsorted hmin
  obtain ⟨hmx1, hmx2⟩ := sorted_le_getLast? sorted _ hsorted hmax
  refine ⟨m, hm, by rw [havg, hperm.sum_eq], ⟨hperm.mem_iff.mp hmn1, ?_⟩,
    ⟨hperm.mem_iff.mp hmx1, ?_⟩, h95, h5⟩
  · intro x hx; exact hmn2 x (hperm.mem_iff.mpr hx)
  · intro x hx; exact hmx2 x (hperm.mem_iff.mpr hx)

/-- C10 at the returns `2, -5, 8, -1`. -/
theorem C10_aggregate_statistics_witness :
    (1 ≤ ([2, -5, 8, -1] : List ℚ).length
        ∧ ([-5, -1, 2, 8] : List ℚ).Sorted (fun a b => a ≤ b)
        ∧ ([-5, -1, 2, 8] : List ℚ).Perm [2, -5, 8, -1])
      ∧ (∃ m, MovingAverageStrategy.aggregate 4 [2, -5, 8, -1] = some m
          ∧ m.avg_return = ([2, -5, 8, -1] : List ℚ).sum / 4
          ∧ (∀ x ∈ ([2, -5, 8, -1] : List ℚ), m.min_return ≤ x)
          ∧ (∀ x ∈ ([2, -5, 8, -1] : List ℚ), x ≤ m.max_return)) := by
  have hs : ([-5, -1, 2, 8] : List ℚ).Sorted (fun a b => a ≤ b) := by
    norm_num [List.Sorted]
  have hp : ([-5, -1, 2, 8] : List ℚ).Perm [2, -5, 8, -1] := by decide!
  refine ⟨⟨by decide, hs, hp⟩, ?_⟩
  obtain ⟨m, hm, havg, hmin, hmax, _⟩ :=
    C10_aggregate_statistics [2, -5, 8, -1] [-5, -1, 2, 8] (by decide) hs hp
  exact ⟨m, hm, by simpa using havg, hmin.2, hmax.2⟩

/-! ## The synthetic path -/

theorem generatePriceData_spec (self : MovingAverageStrategy.Strategy) (draws : Nat → ℚ)
    (numDays : Int) (initialPrice : ℚ) (hn : 1 ≤ numDays) :
    MovingAverageStrategy.generatePriceData self draws numDays initialPrice
      = some { self with
          prices := (List.range numDays.toNat).map (syntheticPrice draws initialPrice) } := by
  obtain ⟨prices, hfold, hprices⟩ := foldlM_range'_inv
    (fun (prices : List ℚ) (i : Nat) =>
      prices.getLast?.bind fun back => some (prices ++ [back * (1 + draws i * 2 / 100)]))
    (fun i prices => prices = (List.range i).map (syntheticPrice draws initialPrice))
    (numDays.toNat - 1) 1 [initialPrice] (by simp [List.range_succ, syntheticPrice])
    (by
      intro i prices hlo _ hinv
      obtain ⟨j, rfl⟩ : ∃ j, i = j + 1 := ⟨i - 1, by omega⟩
      refine ⟨prices ++ [syntheticPrice draws initialPrice (j + 1)], ?_, ?_⟩
      · rw [hinv, List.range_succ]
        simp [syntheticPrice]
      · show prices ++ [syntheticPrice draws initialPrice (j + 1)]
            = (List.range (j + 1 + 1)).map (syntheticPrice draws initialPrice)
        rw [hinv, List.range_succ (j + 1), List.map_append]
        rfl)
  have h1 : 1 + (numDays.toNat - 1) = numDays.toNat := by omega
  rw [h1] at hprices
  unfold MovingAverageStrategy.generatePriceData
  simp only
  rw [hfold, hprices]
  rfl

/-- C16: with the random draws as an explicit sequence `z`, for every
`numDays >= 1` and every initial price `generatePriceData` succeeds and leaves
exactly `numDays` prices with `price[0] = initialPrice` and
`price[i] = price[i-1] * (1 + (z_i * 2) / 100)` for `1 <= i < numDays`; the
other members are untouched, and the new prices do not depend on the object
the call started from, so earlier prices are discarded. -/
theorem C16_generatePriceData (self other : MovingAverageStrategy.Strategy) (draws : Nat → ℚ)
    (numDays : Int) (initialPrice : ℚ) (hn : 1 ≤ numDays) :
    ∃ self1 other1,
      MovingAverageStrategy.generatePriceData self draws numDays initialPrice = some self1
      ∧ MovingAverageStrategy.generatePriceData other draws numDays initialPrice = some other1
      ∧ (self1.prices.length : Int) = numDays
      ∧ self1.prices[0]? = some initialPrice
      ∧ (∀ i : Nat, 1 ≤ i → (i : Int) < numDays →
          ∃ a b, self1.prices[i - 1]? = some a ∧ self1.prices[i]? = some b
            ∧ b = a * (1 + (draws i * 2) / 100))
      ∧ other1.prices = self1.prices
      ∧ self1.shortMA = self.shortMA ∧ self1.longMA = self.longMA
      ∧ self1.shortPeriod = self.shortPeriod ∧ self1.longPeriod = self.longPeriod := by
  refine ⟨_, _, generatePriceData_spec self draws numDays initialPrice hn,
    generatePriceData_spec other draws numDays initialPrice hn, ?_, ?_, ?_, rfl, rfl, rfl, rfl,
    rfl⟩
  · simp; omega
  · have : 0 < numDays.toNat := by omega
    simp [this, syntheticPrice]
  · intro i hi1 hi
    have hlt : i < numDays.toNat := by omega
    obtain ⟨j, rfl⟩ : ∃ j, i = j + 1 := ⟨i - 1, by omega⟩
    refine ⟨syntheticPrice draws initialPrice j, syntheticPrice draws initialPrice (j + 1), ?_,
      ?_, rfl⟩
    · simp [show j < numDays.toNat by omega]
    · simp [hlt]

/-- C16 for the 21-day path drawn from `negativeDraws`, started from an object
that still holds three old prices. -/
theorem C16_generatePriceData_witness :
    ((1 : Int) ≤ 21)
      ∧ (∃ self1, MovingAverageStrategy.generatePriceData ⟨[7, 8, 9], [], [], 5, 20⟩
            negativeDraws 21 100 = some self1
          ∧ (self1.prices.length : Int) = 21 ∧ self1.prices[0]? = some 100) := by
  obtain ⟨self1, _, h1, _, hlen, h0, _⟩ := C16_generatePriceData ⟨[7, 8, 9], [], [], 5, 20⟩
    (MovingAverageStrategy.construct 5 20) negativeDraws 21 100 (by decide)
  exact ⟨by decide, self1, h1, hlen, h0⟩

/-! ## The three replay loops -/

/-- When every successful step of one loop is matched, through a projection of
the state, by a successful step of another, a successful run of the first is
matched by a successful run of the second. -/
theorem foldlM_project {σ τ ι : Type} (f : σ → ι → Option σ) (g : τ → ι → Option τ)
    (proj : σ → τ) (h : ∀ s i s1, f s i = some s1 → g (proj s) i = some (proj s1)) :
    ∀ (l : List ι) (s s1 : σ), l.foldlM f s = some s1 →
      l.foldlM g (proj s) = some (proj s1) := by
  intro l
  induction l with
  | nil =>
    intro s s1 hs
    simp only [List.foldlM_nil] at hs ⊢
    cases hs
    rfl
  | cons a l ih =>
    intro s s1 hs
    rw [List.foldlM_cons] at hs ⊢
    cases hfa : f s a with
    | none => rw [hfa] at hs; simp at hs
    | some s2 =>
      rw [hfa] at hs
      rw [h s a s2 hfa]
      exact ih s2 s1 hs

/-- A successful iteration of `simulateStrategy` is, on balance and position,
an iteration of `runSingleSimulation`. -/
theorem singleStep_of_simulateStep (self : MovingAverageStrategy.Strategy)
    (u u1 : MovingAverageStrategy.SimState) (i : Nat)
    (h : MovingAverageStrategy.simulateStep self u i = some u1) :
    MovingAverageStrategy.singleStep self (u.balance, u.position) i
      = some (u1.balance, u1.position) := by
  unfold MovingAverageStrategy.simulateStep at h
  unfold MovingAverageStrategy.singleStep
  cases h1 : self.shortMA[i]? with
  | none => rw [h1] at h; simp at h
  | some sm =>
    cases h2 : self.longMA[i]? with
    | none => rw [h1, h2] at h; simp at h
    | some lm =>
      rw [h1, h2] at h
      simp only [Option.some_bind] at h ⊢
      by_cases hb : sm > lm ∧ u.position = 0
      · simp only [if_pos hb] at h ⊢
        cases h3 : self.prices[i]? with
        | none => rw [h3] at h; simp at h
        | some p =>
          cases h4 : vecAtDiff self.prices i 1 with
          | none => rw [h3, h4] at h; simp at h
          | some q =>
            rw [h3, h4] at h
            simp at h
            simp [← h]
      · simp only [if_neg hb] at h ⊢
        by_cases hc : sm < lm ∧ u.position = 1
        · simp only [if_pos hc] at h ⊢
          cases h3 : self.prices[i]? with
          | none => rw [h3] at h; simp at h
          | some p =>
            rw [h3] at h
            simp at h
            simp [← h]
        · simp only [if_neg hc] at h ⊢
          by_cases h1 : u.position = 1
          · cases h3 : self.prices[i]? with
            | none => rw [h3] at h; simp [h1] at h
            | some p =>
              cases h4 : vecAtDiff self.prices i 1 with
              | none => rw [h3, h4] at h; simp [h1] at h
              | some q =>
                rw [h3, h4] at h
                simp [h1] at h
                simp [h1, ← h]
          · simp [h1] at h
            simp [h1, ← h]

theorem loopStateAfter_zero (historicalData : List Backtester.StockData)
    (shortPeriod longPeriod : Int) :
    Backtester.loopStateAfter historicalData shortPeriod longPeriod 0
      = some Backtester.initialState := by
  simp [Backtester.loopStateAfter, Backtester.stateAfter]

theorem loopStateAfter_of_le (historicalData : List Backtester.StockData)
    (shortPeriod longPeriod : Int) (hlp : 0 ≤ longPeriod) (k : Nat)
    (hk : historicalData.length - longPeriod.toNat ≤ k) :
    Backtester.loopStateAfter historicalData shortPeriod longPeriod k
      = Backtester.loopStateAfter historicalData shortPeriod longPeriod
          (historicalData.length - longPeriod.toNat) := by
  have hneg : ¬ longPeriod < 0 := by omega
  unfold Backtester.loopStateAfter Backtester.stateAfter loopIndices
  rw [if_neg hneg, take_range', take_range']
  congr 2
  omega

/-- The loops of `runBacktest`, `simulateStrategy` and `runSingleSimulation` on
the same closes and periods (`longPeriod >= 1`) all succeed and end in the same
balance and position: the final state `s` of the first projects onto the final
states of the other two. -/
theorem loops_agree (historicalData : List Backtester.StockData) (shortPeriod longPeriod : Int)
    (hlp : 1 ≤ longPeriod) :
    ∃ s, Backtester.loopStateAfter historicalData shortPeriod longPeriod historicalData.length
          = some s
      ∧ List.foldlM
          (MovingAverageStrategy.simulateStep
            (readyStrategy (closes historicalData) shortPeriod longPeriod))
          (toSim Backtester.initialState)
          (loopIndices longPeriod (closes historicalData).length) = some (toSim s)
      ∧ List.foldlM
          (MovingAverageStrategy.singleStep
            (readyStrategy (closes historicalData) shortPeriod longPeriod))
          ((10000 : ℚ), (0 : Int))
          (loopIndices longPeriod (closes historicalData).length)
          = some (s.balance, s.position) := by
  have hneg : ¬ longPeriod < 0 := by omega
  have hlen : (closes historicalData).length = historicalData.length := by simp [closes]
  have key : ∃ s, Backtester.loopStateAfter historicalData shortPeriod longPeriod
        (historicalData.length - longPeriod.toNat) = some s
      ∧ List.foldlM
          (MovingAverageStrategy.simulateStep
            (readyStrategy (closes historicalData) shortPeriod longPeriod))
          (toSim Backtester.initialState)
          (loopIndices longPeriod (closes historicalData).length) = some (toSim s) := by
    unfold loopIndices
    rw [if_neg hneg, hlen]
    obtain ⟨u, hu, s, hus, hI, _⟩ := foldlM_range'_inv
      (MovingAverageStrategy.simulateStep
        (readyStrategy (closes historicalData) shortPeriod longPeriod))
      (fun i u => ∃ s, u = toSim s
        ∧ Backtester.loopStateAfter historicalData shortPeriod longPeriod (i - longPeriod.toNat)
            = some s
        ∧ s.portfolioValue.length = i - longPeriod.toNat)
      (historicalData.length - longPeriod.toNat) longPeriod.toNat
      (toSim Backtester.initialState)
      ⟨Backtester.initialState, rfl, by rw [Nat.sub_self]; exact loopStateAfter_zero _ _ _,
        by simp [Backtester.initialState]⟩
      (by
        intro i u hlo hhi ⟨s, hus, hst, hpv⟩
        have hin : i < historicalData.length := by omega
        have hi1 : 1 ≤ i := by omega
        have hcl : i < (closes historicalData).length := by rw [hlen]; exact hin
        have hsm := maSeries_getElem? (closes historicalData) shortPeriod i hcl
        have hlm := maSeries_getElem? (closes historicalData) longPeriod i hcl
        obtain ⟨t, ht, hrel⟩ := step_spec historicalData
          (maSeries (closes historicalData) shortPeriod)
          (maSeries (closes historicalData) longPeriod) longPeriod s i _ _
          historicalData[i] (historicalData[i - 1]) hsm hlm
          (List.getElem?_eq_getElem hin) hi1 (List.getElem?_eq_getElem (by omega))
          (by
            intro hgt hnil
            rw [hnil] at hpv
            simp at hpv
            omega)
        refine ⟨toSim t, ?_, t, rfl, ?_, ?_⟩
        · rw [hus]
          refine simulateStep_spec _ i _ _ historicalData[i] (historicalData[i - 1]) longPeriod
            s t hsm hlm ?_ hi1 ?_ hrel
          · show (closes historicalData)[i]? = some historicalData[i].close
            simp [closes, hin]
          · show (closes historicalData)[i - 1]? = some (historicalData[i - 1]).close
            simp [closes, show i - 1 < historicalData.length by omega]
        · have hsucc := loopStateAfter_succ historicalData shortPeriod longPeriod (by omega)
            (i - longPeriod.toNat) (by omega)
          rw [hst, Option.some_bind, show longPeriod.toNat + (i - longPeriod.toNat) = i by omega,
            ht] at hsucc
          rw [show i + 1 - longPeriod.toNat = i - longPeriod.toNat + 1 by omega]
          exact hsucc
        · rw [hrel.2.2.1, List.length_append, hpv]
          simp
          omega)
    refine ⟨s, ?_, by rw [hu, hus]⟩
    rw [show longPeriod.toNat + (historicalData.length - longPeriod.toNat) - longPeriod.toNat
      = historicalData.length - longPeriod.toNat by omega] at hI
    exact hI
  obtain ⟨s, hs, hsim⟩ := key
  refine ⟨s, ?_, hsim, ?_⟩
  · rw [loopStateAfter_of_le historicalData shortPeriod longPeriod (by omega)
      historicalData.length (by omega)]
    exact hs
  · exact foldlM_project _ _
      (fun u : MovingAverageStrategy.SimState => (u.balance, u.position))
      (fun u i u1 h => singleStep_of_simulateStep _ u u1 i h) _
      (toSim Backtester.initialState) (toSim s) hsim

/-- The reports of `runBacktest` and `simulateStrategy` and the value the loop
of `runSingleSimulation` returns, on the same closes with `longPeriod >= 1`. -/
theorem reports_agree (historicalData : List Backtester.StockData) (shortPeriod longPeriod : Int)
    (hne : historicalData ≠ []) (hlp : 1 ≤ longPeriod) :
    ∃ r u b, Backtester.runBacktest historicalData shortPeriod longPeriod
          = Backtester.Outcome.done r
      ∧ MovingAverageStrategy.simulateStrategy
          (readyStrategy (closes historicalData) shortPeriod longPeriod) = some u
      ∧ List.foldlM
          (MovingAverageStrategy.singleStep
            (readyStrategy (closes historicalData) shortPeriod longPeriod))
          ((10000 : ℚ), (0 : Int))
          (loopIndices longPeriod (closes historicalData).length) = some b
      ∧ u.returnPct = r.totalReturn
      ∧ (b.1 - 10000) / 10000 * 100 = r.totalReturn
      ∧ u.balance = r.balance ∧ b.1 = r.balance := by
  obtain ⟨s, hs, hsim, hsingle⟩ := loops_agree historicalData shortPeriod longPeriod hlp
  obtain ⟨first, last, hfirst, hlast⟩ := head?_getLast?_of_ne_nil historicalData hne
  obtain ⟨r, hr, _, hbal, htot, _⟩ := runBacktest_done historicalData shortPeriod longPeriod
    first last s hfirst hlast hs
  have hsim1 : List.foldlM
      (MovingAverageStrategy.simulateStep
        (readyStrategy (closes historicalData) shortPeriod longPeriod))
      { balance := 10000, position := 0, portfolioValue := [], output := [] }
      (loopIndices (readyStrategy (closes historicalData) shortPeriod longPeriod).longPeriod
        (readyStrategy (closes historicalData) shortPeriod longPeriod).prices.length)
      = some (toSim s) := hsim
  refine ⟨r, _, (s.balance, s.position), hr,
    by unfold MovingAverageStrategy.simulateStrategy; rw [hsim1]; rfl, hsingle, ?_, ?_, ?_, ?_⟩
  · rw [htot]; simp [toSim]
  · rw [htot]
  · rw [hbal]; rfl
  · rw [hbal]

theorem runSingleSimulation_eq (old staleShort staleLong : List ℚ) (shortPeriod longPeriod : Int)
    (draws : Nat → ℚ) (b : ℚ × Int)
    (hb : List.foldlM
      (MovingAverageStrategy.singleStep
        (readyStrategy ((List.range 252).map (syntheticPrice draws 100)) shortPeriod longPeriod))
      ((10000 : ℚ), (0 : Int))
      (loopIndices longPeriod ((List.range 252).map (syntheticPrice draws 100)).length)
      = some b) :
    MovingAverageStrategy.runSingleSimulation ⟨old, staleShort, staleLong, shortPeriod,
        longPeriod⟩ draws
      = some ((b.1 - 10000) / 10000 * 100,
          readyStrategy ((List.range 252).map (syntheticPrice draws 100)) shortPeriod
            longPeriod) := by
  unfold MovingAverageStrategy.runSingleSimulation
  rw [generatePriceData_spec _ draws 252 100 (by decide), Option.some_bind]
  have hma := Strategy_calculateMovingAverages_eq
    ((List.range 252).map (syntheticPrice draws 100)) staleShort staleLong shortPeriod longPeriod
  have h252 : (252 : Int).toNat = 252 := rfl
  simp only [h252]
  rw [hma, Option.some_bind]
  have hb1 : List.foldlM
      (MovingAverageStrategy.singleStep
        (readyStrategy ((List.range 252).map (syntheticPrice draws 100)) shortPeriod longPeriod))
      ((10000 : ℚ), (0 : Int))
      (loopIndices
        (readyStrategy ((List.range 252).map (syntheticPrice draws 100)) shortPeriod
          longPeriod).longPeriod
        (readyStrategy ((List.range 252).map (syntheticPrice draws 100)) shortPeriod
          longPeriod).prices.length)
      = some b := hb
  rw [hb1, Option.some_bind]

/-- A call of `runSingleSimulation` with `longPeriod >= 1` returns, and the
percentage it returns is the one `simulateStrategy` prints on the object it
leaves and the one `runBacktest` reports on a series with the same closes. -/
theorem single_run_agrees (shortPeriod longPeriod : Int) (draws : Nat → ℚ)
    (hlp : 1 ≤ longPeriod) :
    ∃ pct self1 u r,
      MovingAverageStrategy.runSingleSimulation
          (MovingAverageStrategy.construct shortPeriod longPeriod) draws = some (pct, self1)
      ∧ MovingAverageStrategy.simulateStrategy self1 = some u
      ∧ Backtester.runBacktest (Backtester.seriesOf self1.prices) shortPeriod longPeriod
          = Backtester.Outcome.done r
      ∧ pct = u.returnPct ∧ pct = r.totalReturn := by
  have hne1 : Backtester.seriesOf ((List.range 252).map (syntheticPrice draws 100)) ≠ [] := by
    intro h
    have := congrArg List.length h
    simp [Backtester.seriesOf] at this
  obtain ⟨r, u, b, hr, hu, hb, h1, h2, _⟩ := reports_agree
    (Backtester.seriesOf ((List.range 252).map (syntheticPrice draws 100)))
    shortPeriod longPeriod hne1 hlp
  rw [closes_seriesOf] at hu hb
  exact ⟨_, _, u, r, runSingleSimulation_eq [] [] [] shortPeriod longPeriod draws b hb, hu, hr,
    by rw [h2, h1], h2⟩

/-- C19: on every non-empty series and periods `>= 1` the three replay loops
agree: the return percentage of the loop of `runSingleSimulation` equals the
one of `simulateStrategy` on the same prices and equals the `totalReturn` of
`runBacktest` on a series with those closes; and a call of
`runSingleSimulation` returns the percentage that `simulateStrategy` prints on
the object it leaves and that `runBacktest` reports on a series with the same
closes. -/
theorem C19_replay_loops_agree (historicalData : List Backtester.StockData)
    (shortPeriod longPeriod : Int) (draws : Nat → ℚ) (hne : historicalData ≠ [])
    (hsp : 1 ≤ shortPeriod) (hlp : 1 ≤ longPeriod) :
    (∃ r u b, Backtester.runBacktest historicalData shortPeriod longPeriod
          = Backtester.Outcome.done r
      ∧ MovingAverageStrategy.simulateStrategy
          (readyStrategy (closes historicalData) shortPeriod longPeriod) = some u
      ∧ List.foldlM
          (MovingAverageStrategy.singleStep
            (readyStrategy (closes historicalData) shortPeriod longPeriod))
          ((10000 : ℚ), (0 : Int))
          (loopIndices longPeriod (closes historicalData).length) = some b
      ∧ (b.1 - 10000) / 10000 * 100 = u.returnPct
      ∧ u.returnPct = r.totalReturn)
    ∧ (∃ pct self1 u r,
        MovingAverageStrategy.runSingleSimulation
            (MovingAverageStrategy.construct shortPeriod longPeriod) draws = some (pct, self1)
        ∧ MovingAverageStrategy.simulateStrategy self1 = some u
        ∧ Backtester.runBacktest (Backtester.seriesOf self1.prices) shortPeriod longPeriod
            = Backtester.Outcome.done r
        ∧ pct = u.returnPct ∧ pct = r.totalReturn) := by
  have _ := hsp
  refine ⟨?_, single_run_agrees shortPeriod longPeriod draws hlp⟩
  obtain ⟨r, u, b, hr, hu, hb, h1, h2, _⟩ :=
    reports_agree historicalData shortPeriod longPeriod hne hlp
  exact ⟨r, u, b, hr, hu, hb, by rw [h2, h1], h1⟩

/-- C19 at the closes `1, 2, 3, 2, 1, 2, 3` with periods 1 and 2, where the
loops trade three times. -/
theorem C19_replay_loops_agree_witness :
    (Backtester.seriesOf [1, 2, 3, 2, 1, 2, 3] ≠ [] ∧ (1 : Int) ≤ 1 ∧ (1 : Int) ≤ 2)
      ∧ (∃ r u b, Backtester.runBacktest (Backtester.seriesOf [1, 2, 3, 2, 1, 2, 3]) 1 2
            = Backtester.Outcome.done r
        ∧ MovingAverageStrategy.simulateStrategy
            (readyStrategy (closes (Backtester.seriesOf [1, 2, 3, 2, 1, 2, 3])) 1 2) = some u
        ∧ List.foldlM
            (MovingAverageStrategy.singleStep
              (readyStrategy (closes (Backtester.seriesOf [1, 2, 3, 2, 1, 2, 3])) 1 2))
            ((10000 : ℚ), (0 : Int))
            (loopIndices 2 (closes (Backtester.seriesOf [1, 2, 3, 2, 1, 2, 3])).length) = some b
        ∧ (b.1 - 10000) / 10000 * 100 = u.returnPct
        ∧ u.returnPct = r.totalReturn) :=
  ⟨by decide!,
   (C19_replay_loops_agree (Backtester.seriesOf [1, 2, 3, 2, 1, 2, 3]) 1 2 negativeDraws
      (by decide!) (by decide) (by decide)).1⟩

/-! ## Error handling -/

/-- C11 fails as stated: the 21-day path drawn from `negativeDraws` has
`close[19] = -100 <= 0`; at index 20 a BUY fires and the loops of
`simulateStrategy` and `runSingleSimulation` do not fail but compute the ratio
`close[20] / close[19] = 500 / -100`, leaving the balance `-50000`. -/
theorem C11_no_data_error_counterexample :
    (MovingAverageStrategy.generatePriceData (MovingAverageStrategy.construct 5 20)
        negativeDraws 21 100).map (fun self => self.prices) = some negativePath
      ∧ negativePath[19]? = some (-100 : ℚ)
      ∧ MovingAverageStrategy.simulateStrategy (readyStrategy negativePath 5 20)
          = some ⟨-50000, -600, ⟨-50000, 1, [-50000], [⟨20, TradeAction.BUY, 500⟩]⟩⟩
      ∧ List.foldlM (MovingAverageStrategy.singleStep (readyStrategy negativePath 5 20))
          ((10000 : ℚ), (0 : Int)) (loopIndices 20 negativePath.length)
          = some (-50000, 1) := by
  refine ⟨by decide!, by decide!, by decide!, by decide!⟩

/-- C11 as amended: no close is checked and no run fails on a non-positive
close.  For every non-empty series and periods `>= 1`, whatever the closes,
`runBacktest` prints its report and `runSingleSimulation` returns a percentage;
and at every evaluated index `i = longPeriod + k` where the position after the
transition is `1` and `close[i-1]` is not zero (negative included) the balance
becomes the previous balance times `close[i] / close[i-1]`. -/
theorem C11_no_close_check (historicalData : List Backtester.StockData)
    (shortPeriod longPeriod : Int) (draws : Nat → ℚ) (hne : historicalData ≠ [])
    (hsp : 1 ≤ shortPeriod) (hlp : 1 ≤ longPeriod) :
    (∃ r, Backtester.runBacktest historicalData shortPeriod longPeriod
        = Backtester.Outcome.done r)
    ∧ (∃ pct self1, MovingAverageStrategy.runSingleSimulation
        (MovingAverageStrategy.construct shortPeriod longPeriod) draws = some (pct, self1))
    ∧ (∀ k : Nat, k < historicalData.length - longPeriod.toNat →
        ∃ s t d p, Backtester.loopStateAfter historicalData shortPeriod longPeriod k = some s
          ∧ Backtester.loopStateAfter historicalData shortPeriod longPeriod (k + 1) = some t
          ∧ historicalData[longPeriod.toNat + k]? = some d
          ∧ historicalData[longPeriod.toNat + k - 1]? = some p
          ∧ (p.close ≠ 0 → t.position = 1 → t.balance = s.balance * (d.close / p.close))) := by
  have _ := hsp
  obtain ⟨r, _, _, hr, _⟩ := reports_agree historicalData shortPeriod longPeriod hne hlp
  obtain ⟨pct, self1, _, _, hrun, _⟩ := single_run_agrees shortPeriod longPeriod draws hlp
  refine ⟨⟨r, hr⟩, ⟨pct, self1, hrun⟩, ?_⟩
  intro k hk
  obtain ⟨s, t, d, p, hs, ht, hd, hp, _, hbal, _⟩ :=
    loop_step_rel historicalData shortPeriod longPeriod hlp k hk
  refine ⟨s, t, d, p, hs, ht, hd, hp, ?_⟩
  intro _ hpos
  rw [hbal, if_pos hpos]

/-- C11 as amended, at the path `negativePath` with periods 5 and 20: the run
over a negative close prints its report. -/
theorem C11_no_close_check_witness :
    (Backtester.seriesOf negativePath ≠ [] ∧ (1 : Int) ≤ 5 ∧ (1 : Int) ≤ 20)
      ∧ (∃ r, Backtester.runBacktest (Backtester.seriesOf negativePath) 5 20
          = Backtester.Outcome.done r) :=
  ⟨by decide!,
   (C11_no_close_check (Backtester.seriesOf negativePath) 5 20 negativeDraws (by decide!)
      (by decide) (by decide)).1⟩

/-- The figures of a printed report are the stated functions of its balance
and of its returns series (lines 182-188 of `backtester.cpp`). -/
theorem runBacktest_report (historicalData : List Backtester.StockData)
    (shortPeriod longPeriod : Int) (r : Backtester.Report)
    (h : Backtester.runBacktest historicalData shortPeriod longPeriod
      = Backtester.Outcome.done r) :
    r.initialBalance = 10000
      ∧ r.totalReturn = ((r.balance - r.initialBalance) / r.initialBalance) * 100
      ∧ r.avgReturn = r.returns.foldl (fun a x => a + x) 0 / (r.returns.length : ℚ)
      ∧ r.variance
          = r.returns.foldl (fun v x => v + (x - r.avgReturn) * (x - r.avgReturn)) 0
              / (r.returns.length : ℚ) := by
  unfold Backtester.runBacktest at h
  split at h
  · cases h
  · split at h
    · cases h
    · split at h
      · split at h
        · cases h
        · cases h
          exact ⟨rfl, rfl, rfl, rfl⟩
      · cases h

/-- C12 fails as stated: on the three closes `1, 2, 3` with periods 1 and 2
(length `= longPeriod + 1`) the trajectory has one element and the returns
series is empty, yet `runBacktest` does not fail: it prints its report. -/
theorem C12_empty_returns_counterexample :
    ∃ r, Backtester.runBacktest (Backtester.seriesOf [1, 2, 3]) 1 2 = Backtester.Outcome.done r
      ∧ r.portfolioValue = [15000] ∧ r.returns = [] ∧ r.trades = 1 :=
  ⟨⟨10000, 15000, 50, 1, 0, 0, 30000, 200, 1, [15000], [],
      [⟨2, "", TradeAction.BUY, 3⟩]⟩, by decide!, by decide!, by decide!, by decide!⟩

/-- C12 as amended: for every non-empty series of length `<= longPeriod + 1`
and periods `>= 1` the trajectory has at most one element and the returns
series is empty, and `runBacktest` does not fail: it prints its report, whose
average return and variance are quotients by `returns.size()`, which is `0`. -/
theorem C12_empty_returns_still_reported (historicalData : List Backtester.StockData)
    (shortPeriod longPeriod : Int) (hne : historicalData ≠ [])
    (hsp : 1 ≤ shortPeriod) (hlp : 1 ≤ longPeriod)
    (hlen : (historicalData.length : Int) ≤ longPeriod + 1) :
    ∃ r, Backtester.runBacktest historicalData shortPeriod longPeriod
          = Backtester.Outcome.done r
      ∧ r.portfolioValue.length ≤ 1 ∧ r.returns = []
      ∧ r.avgReturn = r.returns.foldl (fun a x => a + x) 0 / (r.returns.length : ℚ)
      ∧ r.variance
          = r.returns.foldl (fun v x => v + (x - r.avgReturn) * (x - r.avgReturn)) 0
              / (r.returns.length : ℚ)
      ∧ (r.returns.length : ℚ) = 0 := by
  have _ := hsp
  obtain ⟨r, s, _, _, hr, ⟨hpv, hret⟩, _, _, _, _, _, _, _, _, hrpv, hrret, _⟩ :=
    runBacktest_inv historicalData shortPeriod longPeriod hne hlp
      (fun i s => s.portfolioValue.length = i - longPeriod.toNat
        ∧ (i ≤ longPeriod.toNat + 1 → s.returns = []))
      ⟨by simp [Backtester.initialState], fun _ => rfl⟩
      (by
        intro i s t d p hlo _ _ _ hpv ⟨_, hret⟩ hrel
        refine ⟨?_, ?_⟩
        · rw [hrel.2.2.1, List.length_append, hpv]
          simp
          omega
        · intro hi
          have hngt : ¬ ((i : Int) > longPeriod) := by omega
          rw [hrel.2.2.2.1 hngt]
          exact hret (by omega))
  have hret0 : r.returns = [] := by
    rw [hrret]
    exact hret (by omega)
  obtain ⟨_, _, havg, hvar⟩ := runBacktest_report historicalData shortPeriod longPeriod r hr
  refine ⟨r, hr, ?_, hret0, havg, hvar, by rw [hret0]; simp⟩
  rw [hrpv, hpv]
  omega

/-- C12 as amended, at the closes `1, 2, 3` with periods 1 and 2. -/
theorem C12_empty_returns_still_reported_witness :
    (Backtester.seriesOf [1, 2, 3] ≠ [] ∧ (1 : Int) ≤ 1 ∧ (1 : Int) ≤ 2
        ∧ ((Backtester.seriesOf [1, 2, 3]).length : Int) ≤ 2 + 1)
      ∧ (∃ r, Backtester.runBacktest (Backtester.seriesOf [1, 2, 3]) 1 2
            = Backtester.Outcome.done r
          ∧ r.portfolioValue.length ≤ 1 ∧ r.returns = []) := by
  obtain ⟨r, hr, hpv, hret, _⟩ := C12_empty_returns_still_reported
    (Backtester.seriesOf [1, 2, 3]) 1 2 (by decide!) (by decide) (by decide) (by decide!)
  exact ⟨by decide!, r, hr, hpv, hret⟩

/-! ## Where the signal loop runs -/

/-- C13 fails as stated: on the closes `3, 2, 1` with `shortPeriod = 3` and
`longPeriod = 1` the loop runs at indices 1 and 2, both below
`max(shortPeriod, longPeriod) = 3`: it records a trajectory entry at each, at
index 1 it compares the sentinel short average `0` with the long average `2`,
and at index 2 it emits a BUY. -/
theorem C13_loop_start_counterexample :
    loopIndices 1 3 = [1, 2]
      ∧ Backtester.calculateMA [3, 2, 1] 3 1 = some 0
      ∧ Backtester.calculateMA [3, 2, 1] 1 1 = some 2
      ∧ ∃ r, Backtester.runBacktest (Backtester.seriesOf [3, 2, 1]) 3 1
            = Backtester.Outcome.done r
          ∧ r.output = [⟨2, "", TradeAction.BUY, 1⟩]
          ∧ r.portfolioValue = [10000, 5000] :=
  ⟨by decide!, by decide!, by decide!,
   ⟨10000, 5000, -50, 1, -1 / 2, 0, 10000 / 3, -200 / 3, 1, [10000, 5000], [-1 / 2],
      [⟨2, "", TradeAction.BUY, 1⟩]⟩, by decide!, by decide!, by decide!⟩

/-- The trades printed so far carry indices from `longPeriod` up to the
current index, and this is kept by one iteration. -/
theorem trade_index_step (sm lm : ℚ) (d p : Backtester.StockData) (longPeriod : Int) (i : Nat)
    (lo : Nat) (hlo : lo ≤ i) (s t : Backtester.LoopState)
    (hinv : ∀ x ∈ s.output, lo ≤ x.index ∧ x.index < i)
    (hrel : Backtester.StepRel sm lm d p longPeriod i s t) :
    ∀ x ∈ t.output, lo ≤ x.index ∧ x.index < i + 1 := by
  intro x hx
  rcases hrel.1 with ⟨_, _, _, _, hout⟩ | ⟨_, _, _, _, _, hout⟩ | ⟨_, _, _, _, hout⟩
  · rw [hout, List.mem_append, List.mem_singleton] at hx
    rcases hx with hx | hx
    · exact ⟨(hinv x hx).1, by have := (hinv x hx).2; omega⟩
    · rw [hx]; exact ⟨hlo, Nat.lt_succ_self i⟩
  · rw [hout, List.mem_append, List.mem_singleton] at hx
    rcases hx with hx | hx
    · exact ⟨(hinv x hx).1, by have := (hinv x hx).2; omega⟩
    · rw [hx]; exact ⟨hlo, Nat.lt_succ_self i⟩
  · rw [hout] at hx
    exact ⟨(hinv x hx).1, by have := (hinv x hx).2; omega⟩

/-- C13 as amended: for every non-empty series and periods `>= 1` the signal
loop takes its steps exactly at the indices `longPeriod, ..., size - 1`: every
BUY or SELL carries an index `>= longPeriod`, and the trajectory has one entry
per such index and none for an index below `longPeriod`.  When
`shortPeriod <= longPeriod + 1`, at every such index both averages are means
over a full window, so no signal is decided from a sentinel. -/
theorem C13_loop_runs_from_longPeriod (historicalData : List Backtester.StockData)
    (shortPeriod longPeriod : Nat) (hne : historicalData ≠ [])
    (hsp : 1 ≤ shortPeriod) (hlp : 1 ≤ longPeriod) :
    loopIndices (longPeriod : Int) historicalData.length
        = List.range' longPeriod (historicalData.length - longPeriod)
      ∧ (∃ r, Backtester.runBacktest historicalData (shortPeriod : Int) (longPeriod : Int)
            = Backtester.Outcome.done r
          ∧ (∀ x ∈ r.output, longPeriod ≤ x.index ∧ x.index < historicalData.length)
          ∧ r.portfolioValue.length
              = (loopIndices (longPeriod : Int) historicalData.length).length)
      ∧ (shortPeriod ≤ longPeriod + 1 →
          ∀ i ∈ loopIndices (longPeriod : Int) historicalData.length,
            Backtester.calculateMA (closes historicalData) (shortPeriod : Int) (i : Int)
                = some ((((closes historicalData).drop (i + 1 - shortPeriod)).take
                    shortPeriod).sum / (shortPeriod : ℚ))
              ∧ Backtester.calculateMA (closes historicalData) (longPeriod : Int) (i : Int)
                = some ((((closes historicalData).drop (i + 1 - longPeriod)).take
                    longPeriod).sum / (longPeriod : ℚ))) := by
  have _ := hsp
  have hidx : loopIndices (longPeriod : Int) historicalData.length
      = List.range' longPeriod (historicalData.length - longPeriod) := by
    unfold loopIndices
    rw [if_neg (by omega)]
    rfl
  refine ⟨hidx, ?_, ?_⟩
  · obtain ⟨r, s, _, _, hr, ⟨hout, hpv⟩, _, _, _, _, _, _, _, hrout, hrpv, _⟩ :=
      runBacktest_inv historicalData (shortPeriod : Int) (longPeriod : Int) hne
        (by exact_mod_cast hlp)
        (fun i s => (∀ x ∈ s.output, longPeriod ≤ x.index ∧ x.index < i)
          ∧ s.portfolioValue.length = i - longPeriod)
        ⟨by simp [Backtester.initialState], by simp [Backtester.initialState]⟩
        (by
          intro i s t d p hlo _ _ _ _ ⟨hout, hpv⟩ hrel
          have hlo1 : longPeriod ≤ i := by simpa using hlo
          refine ⟨trade_index_step _ _ d p _ i longPeriod hlo1 s t hout hrel, ?_⟩
          rw [hrel.2.2.1, List.length_append, hpv]
          simp
          omega)
    simp only [Int.toNat_ofNat] at hout hpv
    refine ⟨r, hr, ?_, ?_⟩
    · intro x hx
      rw [hrout] at hx
      have := hout x hx
      exact ⟨this.1, by omega⟩
    · rw [hrpv, hpv, hidx, List.length_range']
      omega
  · intro hle i hi
    rw [hidx, List.mem_range'_1] at hi
    have hcl : i < (closes historicalData).length := by simp [closes]; omega
    exact ⟨calculateMA_window _ shortPeriod i (by omega) hcl,
      calculateMA_window _ longPeriod i (by omega) hcl⟩

/-- C13 as amended, at the closes `3, 2, 1` with `shortPeriod = 3` and
`longPeriod = 1`. -/
theorem C13_loop_runs_from_longPeriod_witness :
    (Backtester.seriesOf [3, 2, 1] ≠ [] ∧ 1 ≤ 3 ∧ 1 ≤ 1)
      ∧ (∃ r, Backtester.runBacktest (Backtester.seriesOf [3, 2, 1]) ((3 : Nat) : Int)
              ((1 : Nat) : Int) = Backtester.Outcome.done r
          ∧ (∀ x ∈ r.output, 1 ≤ x.index ∧ x.index < (Backtester.seriesOf [3, 2, 1]).length)
          ∧ r.portfolioValue.length
              = (loopIndices ((1 : Nat) : Int) (Backtester.seriesOf [3, 2, 1]).length).length) :=
  ⟨by decide!,
   (C13_loop_runs_from_longPeriod (Backtester.seriesOf [3, 2, 1]) 3 1 (by decide!)
      (by decide) (by decide)).2.1⟩

/-! ## Returns series and metrics -/

/-- One iteration keeps the relation between the trajectory and the returns
series: one sample fewer than trajectory entries, and sample `k` is
`trajectory[k+1] / trajectory[k] - 1`. -/
theorem returns_step (sm lm : ℚ) (d p : Backtester.StockData) (longPeriod : Int) (i : Nat)
    (s t : Backtester.LoopState) (hlp : 0 ≤ longPeriod) (hlo : longPeriod.toNat ≤ i)
    (hlen : s.portfolioValue.length = i - longPeriod.toNat)
    (hinv : s.returns.length = s.portfolioValue.length - 1
      ∧ ∀ k : Nat, k + 1 < s.portfolioValue.length →
          ∃ a b, s.portfolioValue[k + 1]? = some a ∧ s.portfolioValue[k]? = some b
            ∧ s.returns[k]? = some (a / b - 1))
    (hrel : Backtester.StepRel sm lm d p longPeriod i s t) :
    t.returns.length = t.portfolioValue.length - 1
      ∧ ∀ k : Nat, k + 1 < t.portfolioValue.length →
          ∃ a b, t.portfolioValue[k + 1]? = some a ∧ t.portfolioValue[k]? = some b
            ∧ t.returns[k]? = some (a / b - 1) := by
  obtain ⟨hrl, hret⟩ := hinv
  obtain ⟨_, _, hpv, hsame, hpush⟩ := hrel
  by_cases hgt : (i : Int) > longPeriod
  · have hpos : 1 ≤ s.portfolioValue.length := by omega
    have hne : s.portfolioValue ≠ [] := by
      intro h; rw [h] at hpos; simp at hpos
    obtain ⟨prev, hprev⟩ := Option.isSome_iff_exists.mp (List.getLast?_isSome.mpr hne)
    have hr := hpush prev hgt hprev
    have hprev1 : s.portfolioValue[s.portfolioValue.length - 1]? = some prev := by
      rw [← List.getLast?_eq_getElem?]; exact hprev
    refine ⟨by rw [hr, hpv]; simp; omega, ?_⟩
    intro k hk
    rw [hpv, List.length_append, List.length_singleton] at hk
    by_cases hk1 : k + 1 < s.portfolioValue.length
    · obtain ⟨a, b, ha, hb, hab⟩ := hret k hk1
      refine ⟨a, b, ?_, ?_, ?_⟩
      · rw [hpv, List.getElem?_append_left hk1]; exact ha
      · rw [hpv, List.getElem?_append_left (by omega)]; exact hb
      · rw [hr, List.getElem?_append_left (by omega)]; exact hab
    · have hk2 : k + 1 = s.portfolioValue.length := by omega
      refine ⟨t.balance, prev, ?_, ?_, ?_⟩
      · rw [hpv, hk2, List.getElem?_append_right (le_refl _)]
        simp
      · rw [hpv, List.getElem?_append_left (by omega),
          show k = s.portfolioValue.length - 1 by omega]
        exact hprev1
      · rw [hr, show k = s.returns.length by omega,
          List.getElem?_append_right (le_refl _)]
        simp
  · have hzero : s.portfolioValue.length = 0 := by omega
    refine ⟨by rw [hsame hgt, hpv, hrl]; simp [hzero], ?_⟩
    intro k hk
    rw [hpv, List.length_append, List.length_singleton] at hk
    omega

/-- One iteration keeps the balance equal to the last trajectory entry. -/
theorem balance_step (sm lm : ℚ) (d p : Backtester.StockData) (longPeriod : Int) (i : Nat)
    (s t : Backtester.LoopState) (hrel : Backtester.StepRel sm lm d p longPeriod i s t) :
    t.portfolioValue.getLast? = some t.balance := by
  rw [hrel.2.2.1]
  simp

/-- C14: for every non-empty series with positive closes and periods `>= 1`,
`runBacktest` prints a report in which the returns series has
`len(trajectory) - 1` samples when the trajectory is non-empty, sample number
`k >= 1` equals `trajectory[k] / trajectory[k-1] - 1`, the final balance is the
last trajectory element, and `totalReturn` equals
`(finalBalance - initialBalance) / initialBalance * 100`. -/
theorem C14_returns_series (historicalData : List Backtester.StockData)
    (shortPeriod longPeriod : Int) (hne : historicalData ≠ [])
    (hpos : ∀ d ∈ historicalData, 0 < d.close)
    (hsp : 1 ≤ shortPeriod) (hlp : 1 ≤ longPeriod) :
    ∃ r, Backtester.runBacktest historicalData shortPeriod longPeriod
          = Backtester.Outcome.done r
      ∧ (r.portfolioValue ≠ [] → r.returns.length = r.portfolioValue.length - 1)
      ∧ (∀ k : Nat, 1 ≤ k → k < r.portfolioValue.length →
          ∃ a b, r.portfolioValue[k]? = some a ∧ r.portfolioValue[k - 1]? = some b
            ∧ r.returns[k - 1]? = some (a / b - 1))
      ∧ (r.portfolioValue ≠ [] → r.portfolioValue.getLast? = some r.balance)
      ∧ r.totalReturn = (r.balance - r.initialBalance) / r.initialBalance * 100 := by
  have _ := hpos
  have _ := hsp
  obtain ⟨r, s, _, _, hr, ⟨hrl, hret, hbal⟩, _, _, _, hrbal, _, _, _, _, hrpv, hrret, _⟩ :=
    runBacktest_inv historicalData shortPeriod longPeriod hne hlp
      (fun _ s => s.returns.length = s.portfolioValue.length - 1
        ∧ (∀ k : Nat, k + 1 < s.portfolioValue.length →
            ∃ a b, s.portfolioValue[k + 1]? = some a ∧ s.portfolioValue[k]? = some b
              ∧ s.returns[k]? = some (a / b - 1))
        ∧ (s.portfolioValue ≠ [] → s.portfolioValue.getLast? = some s.balance))
      ⟨rfl, by intro k hk; simp [Backtester.initialState] at hk,
        by intro h; exact absurd rfl h⟩
      (by
        intro i s t d p hlo _ _ _ hlen ⟨hrl, hret, _⟩ hrel
        obtain ⟨h1, h2⟩ := returns_step _ _ d p longPeriod i s t (by omega) hlo hlen
          ⟨hrl, hret⟩ hrel
        exact ⟨h1, h2, fun _ => balance_step _ _ d p longPeriod i s t hrel⟩)
  obtain ⟨_, htot, _, _⟩ := runBacktest_report historicalData shortPeriod longPeriod r hr
  rw [← hrpv, ← hrret] at hrl hret
  rw [← hrpv, ← hrbal] at hbal
  refine ⟨r, hr, fun _ => hrl, ?_, hbal, by rw [htot]⟩
  intro k hk1 hk
  obtain ⟨j, rfl⟩ : ∃ j, k = j + 1 := ⟨k - 1, by omega⟩
  exact hret j hk

/-- C14 at the closes `1, 2, 3, 2, 1, 2, 3` with periods 1 and 2 (five
trajectory entries, four return samples). -/
theorem C14_returns_series_witness :
    (Backtester.seriesOf [1, 2, 3, 2, 1, 2, 3] ≠ []
        ∧ (∀ d ∈ Backtester.seriesOf [1, 2, 3, 2, 1, 2, 3], 0 < d.close)
        ∧ (1 : Int) ≤ 1 ∧ (1 : Int) ≤ 2)
      ∧ (∃ r, Backtester.runBacktest (Backtester.seriesOf [1, 2, 3, 2, 1, 2, 3]) 1 2
            = Backtester.Outcome.done r
          ∧ (r.portfolioValue ≠ [] → r.returns.length = r.portfolioValue.length - 1)
          ∧ r.totalReturn = (r.balance - r.initialBalance) / r.initialBalance * 100) := by
  obtain ⟨r, hr, hlen, _, _, htot⟩ := C14_returns_series
    (Backtester.seriesOf [1, 2, 3, 2, 1, 2, 3]) 1 2 (by decide!) (by decide!) (by decide)
    (by decide)
  exact ⟨by decide!, r, hr, hlen, htot⟩

theorem foldl_add_map (g : ℚ → ℚ) :
    ∀ (l : List ℚ) (a : ℚ), l.foldl (fun v x => v + g x) a = a + (l.map g).sum := by
  intro l
  induction l with
  | nil => intro a; simp
  | cons x l ih =>
    intro a
    rw [List.foldl_cons, ih, List.map_cons, List.sum_cons, add_assoc]

/-- C15: with `std::sqrt` as an uninterpreted function, for every series longer
than `longPeriod + 1` (so that the returns series `r`, of length `n`, is not
empty) and periods `>= 1`, `runBacktest` computes the average return
`mean(r) = sum(r) / n`, the volatility
`sqrt((1/n) * sum over k of (r[k] - mean(r))^2) * sqrt(252)` with divisor `n`,
and the Sharpe ratio `(mean(r) * 252) / volatility`. -/
theorem C15_volatility_and_sharpe (historicalData : List Backtester.StockData)
    (shortPeriod longPeriod : Int) (sqrt : ℚ → ℚ)
    (hsp : 1 ≤ shortPeriod) (hlp : 1 ≤ longPeriod)
    (hlen : longPeriod + 1 < (historicalData.length : Int)) :
    ∃ r, Backtester.runBacktest historicalData shortPeriod longPeriod
          = Backtester.Outcome.done r
      ∧ r.returns ≠ []
      ∧ r.avgReturn = r.returns.sum / (r.returns.length : ℚ)
      ∧ Backtester.volatility sqrt r
          = sqrt ((1 / (r.returns.length : ℚ))
                * (r.returns.map fun x => (x - r.returns.sum / (r.returns.length : ℚ)) ^ 2).sum)
              * sqrt 252
      ∧ Backtester.sharpeRatio sqrt r
          = (r.returns.sum / (r.returns.length : ℚ) * 252) / Backtester.volatility sqrt r := by
  have _ := hsp
  have hne : historicalData ≠ [] := by
    intro h; rw [h] at hlen; simp at hlen; omega
  obtain ⟨r, s, _, _, hr, ⟨hpv, hrl⟩, _, _, _, _, _, _, _, _, _, hrret, _⟩ :=
    runBacktest_inv historicalData shortPeriod longPeriod hne hlp
      (fun i s => s.portfolioValue.length = i - longPeriod.toNat
        ∧ s.returns.length = s.portfolioValue.length - 1)
      ⟨by simp [Backtester.initialState], rfl⟩
      (by
        intro i s t d p hlo _ _ _ hpv ⟨_, hrl⟩ hrel
        refine ⟨?_, ?_⟩
        · rw [hrel.2.2.1, List.length_append, hpv]
          simp
          omega
        · by_cases hgt : (i : Int) > longPeriod
          · have hne : s.portfolioValue ≠ [] := by
              intro h; rw [h] at hpv; simp at hpv; omega
            obtain ⟨prev, hprev⟩ := Option.isSome_iff_exists.mp (List.getLast?_isSome.mpr hne)
            rw [hrel.2.2.2.2 prev hgt hprev, hrel.2.2.1]
            simp
            omega
          · rw [hrel.2.2.2.1 hgt, hrel.2.2.1, hrl]
            simp
            omega)
  obtain ⟨_, _, havg, hvar⟩ := runBacktest_report historicalData shortPeriod longPeriod r hr
  have hmean : r.avgReturn = r.returns.sum / (r.returns.length : ℚ) := by
    rw [havg, List.sum_eq_foldl]
  have hrne : r.returns ≠ [] := by
    intro h
    rw [hrret] at h
    rw [h] at hrl
    simp at hrl
    omega
  refine ⟨r, hr, hrne, hmean, ?_, ?_⟩
  · unfold Backtester.volatility
    rw [hvar, hmean, foldl_add_map (fun x => (x - r.returns.sum / (r.returns.length : ℚ))
      * (x - r.returns.sum / (r.returns.length : ℚ)))]
    congr 2
    rw [zero_add, one_div, inv_mul_eq_div]
    simp only [pow_two]
  · unfold Backtester.sharpeRatio
    rw [hmean]

/-- C15 at the closes `1, 2, 3, 2, 1, 2, 3` with periods 1 and 2 and the
square root replaced by the identity. -/
theorem C15_volatility_and_sharpe_witness :
    ((1 : Int) ≤ 1 ∧ (1 : Int) ≤ 2
        ∧ (2 : Int) + 1 < ((Backtester.seriesOf [1, 2, 3, 2, 1, 2, 3]).length : Int))
      ∧ (∃ r, Backtester.runBacktest (Backtester.seriesOf [1, 2, 3, 2, 1, 2, 3]) 1 2
            = Backtester.Outcome.done r
          ∧ r.returns ≠ []
          ∧ r.avgReturn = r.returns.sum / (r.returns.length : ℚ)) := by
  obtain ⟨r, hr, hne, havg, _⟩ := C15_volatility_and_sharpe
    (Backtester.seriesOf [1, 2, 3, 2, 1, 2, 3]) 1 2 (fun x => x) (by decide) (by decide)
    (by decide!)
  exact ⟨by decide!, r, hr, hne, havg⟩

/-! ## Parameters are not validated -/

/-- C17 fails as stated: with `longPeriod = 20` on three observations
`runBacktest` is not rejected: it computes both moving-average vectors and
prints a report; and with `numSimulations = 0` `runMonteCarloSimulation` is not
rejected either: its collecting loop ends with no returns and the aggregation
then reads `returns[0]` of the empty vector, an out-of-bounds read. -/
theorem C17_no_config_error_counterexample :
    Backtester.calculateMovingAverages (Backtester.seriesOf [1, 2, 3]) 5 20
        = some ([0, 0, 0], [0, 0, 0])
      ∧ (∃ r, Backtester.runBacktest (Backtester.seriesOf [1, 2, 3]) 5 20
            = Backtester.Outcome.done r
          ∧ r.trades = 0 ∧ r.balance = 10000)
      ∧ MovingAverageStrategy.collectReturns (MovingAverageStrategy.construct 5 20)
          (fun _ => negativeDraws) 0 = some ([], MovingAverageStrategy.construct 5 20)
      ∧ vecAt ([] : List ℚ) (Int.tdiv 0 2) = none
      ∧ MovingAverageStrategy.runMonteCarloSimulation (MovingAverageStrategy.construct 5 20)
          (fun _ => negativeDraws) 0 = none :=
  ⟨by decide!,
   ⟨⟨10000, 10000, 0, 0, 0, 0, 30000, 200, 0, [], [], []⟩, by decide!, by decide!, by decide!⟩,
   by decide!, by decide!, by decide!⟩

theorem maValue_sentinel (data : List ℚ) (period : Int) (i : Nat)
    (h : (i : Int) < period - 1) : maValue data period i = 0 := by
  unfold maValue
  rw [calculateMA_sentinel data period i h]
  rfl

/-- C17 as amended: a long window larger than the number of observations is not
rejected.  For every non-empty series and periods `>= 1` with
`longPeriod > size`, `runBacktest` computes both moving-average vectors (the
long one is the sentinel `0` at every index), runs no loop iteration and prints
a report with no trade, an empty trajectory, a final balance equal to the
initial balance and total return `0`. -/
theorem C17_oversized_window_not_rejected (historicalData : List Backtester.StockData)
    (shortPeriod longPeriod : Int) (hne : historicalData ≠ [])
    (hsp : 1 ≤ shortPeriod) (hlp : 1 ≤ longPeriod)
    (hbig : (historicalData.length : Int) < longPeriod) :
    Backtester.calculateMovingAverages historicalData shortPeriod longPeriod
        = some (maSeries (closes historicalData) shortPeriod,
                List.replicate historicalData.length 0)
      ∧ loopIndices longPeriod historicalData.length = []
      ∧ (∃ r, Backtester.runBacktest historicalData shortPeriod longPeriod
            = Backtester.Outcome.done r
          ∧ r.trades = 0 ∧ r.output = [] ∧ r.portfolioValue = []
          ∧ r.balance = r.initialBalance ∧ r.totalReturn = 0) := by
  have _ := hsp
  have hidx : loopIndices longPeriod historicalData.length = [] := by
    unfold loopIndices
    rw [if_neg (by omega), show historicalData.length - longPeriod.toNat = 0 by omega]
    rfl
  refine ⟨?_, hidx, ?_⟩
  · rw [calculateMovingAverages_eq]
    congr 2
    unfold maSeries
    rw [List.eq_replicate_iff]
    refine ⟨by simp [closes], ?_⟩
    intro x hx
    rw [List.mem_map] at hx
    obtain ⟨i, hi, rfl⟩ := hx
    rw [List.mem_range] at hi
    have hi1 : i < historicalData.length := by simpa [closes] using hi
    exact maValue_sentinel _ _ i (by omega)
  · obtain ⟨first, last, hfirst, hlast⟩ := head?_getLast?_of_ne_nil historicalData hne
    have hs : Backtester.loopStateAfter historicalData shortPeriod longPeriod
        historicalData.length = some Backtester.initialState := by
      rw [loopStateAfter_length, hidx]
      rfl
    obtain ⟨r, hr, hinit, hbal, htot, htr, _, hout, hpv, _⟩ :=
      runBacktest_done historicalData shortPeriod longPeriod first last
        Backtester.initialState hfirst hlast hs
    refine ⟨r, hr, htr, hout, hpv, by rw [hbal, hinit]; rfl, ?_⟩
    rw [htot]
    simp [Backtester.initialState, Backtester.initialBalance]

/-- C17 as amended, at three observations with periods 5 and 20. -/
theorem C17_oversized_window_not_rejected_witness :
    (Backtester.seriesOf [1, 2, 3] ≠ [] ∧ (1 : Int) ≤ 5 ∧ (1 : Int) ≤ 20
        ∧ ((Backtester.seriesOf [1, 2, 3]).length : Int) < 20)
      ∧ (∃ r, Backtester.runBacktest (Backtester.seriesOf [1, 2, 3]) 5 20
            = Backtester.Outcome.done r
          ∧ r.trades = 0 ∧ r.output = [] ∧ r.portfolioValue = []
          ∧ r.balance = r.initialBalance ∧ r.totalReturn = 0) :=
  ⟨by decide!,
   (C17_oversized_window_not_rejected (Backtester.seriesOf [1, 2, 3]) 5 20 (by decide!)
      (by decide) (by decide) (by decide!)).2.2⟩

/-! ## The indices of the Monte Carlo aggregation -/

theorem sorted_getElem?_le (l : List ℚ) (hs : l.Sorted (fun a b => a ≤ b)) (i j : Nat)
    (a b : ℚ) (hij : i ≤ j) (ha : l[i]? = some a) (hb : l[j]? = some b) : a ≤ b := by
  obtain ⟨hi, rfl⟩ := List.getElem?_eq_some_iff.mp ha
  obtain ⟨hj, rfl⟩ := List.getElem?_eq_some_iff.mp hb
  rcases Nat.eq_or_lt_of_le hij with h | h
  · subst h
    exact le_refl _
  · exact (List.pairwise_iff_getElem.mp hs) i j hi hj h

/-- For `n >= 1` the three indices of the aggregation lie in `[0, n)` and are
ordered. -/
theorem aggregate_indices (n : Nat) (hn : 1 ≤ n) :
    0 ≤ ⌊(n : ℚ) * 0.05⌋
      ∧ ⌊(n : ℚ) * 0.05⌋ ≤ ((n / 2 : Nat) : Int)
      ∧ ((n / 2 : Nat) : Int) ≤ ⌊(n : ℚ) * 0.95⌋
      ∧ ⌊(n : ℚ) * 0.95⌋ < (n : Int) := by
  obtain ⟨h5a, _⟩ := floor_scaled_toNat_lt n hn 0.05 (by norm_num) (by norm_num)
  obtain ⟨h95a, h95b⟩ := floor_scaled_toNat_lt n hn 0.95 (by norm_num) (by norm_num)
  have hn0 : (0 : ℚ) ≤ (n : ℚ) := by positivity
  have hhalf : n ≤ 2 * (n / 2) + 1 := by omega
  have hhalf2 : 2 * (n / 2) ≤ n := by omega
  generalize n / 2 = k at hhalf hhalf2 ⊢
  have hhalfq : (n : ℚ) ≤ 2 * (k : ℚ) + 1 := by exact_mod_cast hhalf
  have hhalf2q : 2 * (k : ℚ) ≤ (n : ℚ) := by exact_mod_cast hhalf2
  refine ⟨h5a, ?_, ?_, by omega⟩
  · have : ⌊(n : ℚ) * 0.05⌋ < (k : Int) + 1 := by
      rw [Int.floor_lt]
      simp only [Int.cast_add, Int.cast_natCast, Int.cast_one]
      norm_num
      linarith
    omega
  · rw [Int.le_floor]
    simp only [Int.cast_natCast]
    norm_num
    linarith

/-- C18: for every list of `n >= 1` collected returns, the three indices the
aggregation uses, `n / 2`, `static_cast<int>(n * 0.95)` and
`static_cast<int>(n * 0.05)`, lie in `[0, n)` and satisfy
`floor(n*0.05) <= n/2 <= floor(n*0.95)`; the aggregation succeeds (no lookup is
out of bounds) and reports `worst <= p5 <= median <= p95 <= best`. -/
theorem C18_indices_in_bounds_and_ordered (returns : List ℚ) (hn : 1 ≤ returns.length) :
    (0 ≤ Int.tdiv (returns.length : Int) 2
        ∧ Int.tdiv (returns.length : Int) 2 < (returns.length : Int))
      ∧ (0 ≤ MovingAverageStrategy.castToInt ((returns.length : ℚ) * 0.95)
        ∧ MovingAverageStrategy.castToInt ((returns.length : ℚ) * 0.95)
            < (returns.length : Int))
      ∧ (0 ≤ MovingAverageStrategy.castToInt ((returns.length : ℚ) * 0.05)
        ∧ MovingAverageStrategy.castToInt ((returns.length : ℚ) * 0.05)
            < (returns.length : Int))
      ∧ MovingAverageStrategy.castToInt ((returns.length : ℚ) * 0.05)
          ≤ Int.tdiv (returns.length : Int) 2
      ∧ Int.tdiv (returns.length : Int) 2
          ≤ MovingAverageStrategy.castToInt ((returns.length : ℚ) * 0.95)
      ∧ MovingAverageStrategy.castToInt ((returns.length : ℚ) * 0.95)
          = ⌊(returns.length : ℚ) * 0.95⌋
      ∧ MovingAverageStrategy.castToInt ((returns.length : ℚ) * 0.05)
          = ⌊(returns.length : ℚ) * 0.05⌋
      ∧ (∃ m, MovingAverageStrategy.aggregate (returns.length : Int) returns = some m
          ∧ m.min_return ≤ m.percentile_5 ∧ m.percentile_5 ≤ m.median_return
          ∧ m.median_return ≤ m.percentile_95 ∧ m.percentile_95 ≤ m.max_return) := by
  have hn0 : (0 : ℚ) ≤ (returns.length : ℚ) := by positivity
  obtain ⟨h1, h2, h3, h4⟩ := aggregate_indices returns.length hn
  have hc95 := castToInt_eq_floor ((returns.length : ℚ) * 0.95) (mul_nonneg hn0 (by norm_num))
  have hc5 := castToInt_eq_floor ((returns.length : ℚ) * 0.05) (mul_nonneg hn0 (by norm_num))
  have hdiv : Int.tdiv (returns.length : Int) 2 = ((returns.length / 2 : Nat) : Int) := rfl
  rw [hc95, hc5, hdiv]
  refine ⟨⟨by omega, by omega⟩, ⟨by omega, h4⟩, ⟨h1, by omega⟩, h2, h3, rfl, rfl, ?_⟩
  obtain ⟨m, hm, _, hmed, hmin, hmax, h95, h5⟩ := aggregate_spec returns hn
  have hs := List.sorted_insertionSort (fun a b : ℚ => a ≤ b) returns
  have hlen : (returns.insertionSort (fun a b => a ≤ b)).length = returns.length :=
    List.length_insertionSort _ _
  rw [List.head?_eq_getElem?] at hmin
  rw [List.getLast?_eq_getElem?, hlen] at hmax
  refine ⟨m, hm, ?_, ?_, ?_, ?_⟩
  · exact sorted_getElem?_le _ hs _ _ _ _ (Nat.zero_le _) hmin h5
  · exact sorted_getElem?_le _ hs _ _ _ _ (by omega) h5 hmed
  · exact sorted_getElem?_le _ hs _ _ _ _ (by omega) hmed h95
  · exact sorted_getElem?_le _ hs _ _ _ _ (by omega) h95 hmax

/-- C18 at the returns `2, -5, 8, -1`: indices 0, 2 and 3. -/
theorem C18_indices_in_bounds_and_ordered_witness :
    (1 ≤ ([2, -5, 8, -1] : List ℚ).length)
      ∧ (∃ m, MovingAverageStrategy.aggregate 4 [2, -5, 8, -1] = some m
          ∧ m.min_return ≤ m.percentile_5 ∧ m.percentile_5 ≤ m.median_return
          ∧ m.median_return ≤ m.percentile_95 ∧ m.percentile_95 ≤ m.max_return) :=
  ⟨by decide,
   (C18_indices_in_bounds_and_ordered [2, -5, 8, -1] (by decide)).2.2.2.2.2.2.2⟩

/-! ## The loop of `runBacktest` for any arithmetic -/

theorem ops_calculateMA_exact :
    Ops.Backtester.calculateMA exactOps = Backtester.calculateMA := rfl

theorem ops_strategy_calculateMA_eq :
    Ops.MovingAverageStrategy.calculateMA = Ops.Backtester.calculateMA := rfl

theorem ops_runBacktest_exact :
    Ops.Backtester.runBacktest exactOps = Backtester.runBacktest := rfl

/-- The summation loop of `calculateMA` reads inside the vector and adds the
window values in the order `data[i], data[i-1], ..., data[i-P+1]`. -/
theorem ops_sumLoop_eq (ops : DoubleOps) (data : List ℚ) (i : Nat) (hi : i < data.length) :
    ∀ P : Nat, P ≤ i + 1 →
      (List.range P).foldlM
        (fun (sum : ℚ) (k : Nat) =>
          (vecAt data ((i : Int) - (k : Int))).map (fun x => ops.add sum x))
        (0 : ℚ) = some (((data.drop (i + 1 - P)).take P).reverse.foldl ops.add 0) := by
  intro P
  induction P with
  | zero => intro _; simp
  | succ P ih =>
    intro hP
    have hPi : P ≤ i := by omega
    rw [List.range_succ, List.foldlM_append, ih (by omega)]
    have hd : data.drop (i + 1 - (P + 1)) = data[i - P] :: data.drop (i + 1 - P) := by
      have : i + 1 - (P + 1) = i - P := by omega
      rw [this, List.drop_eq_getElem_cons (by omega : i - P < data.length)]
      congr 2
      omega
    rw [hd, List.take_succ_cons, List.reverse_cons, List.foldl_append]
    simp [vecAt_sub data i P hPi, List.getElem?_eq_getElem (by omega : i - P < data.length)]

theorem ops_calculateMA_window (ops : DoubleOps) (data : List ℚ) (P i : Nat) (hlo : P ≤ i + 1)
    (hi : i < data.length) :
    Ops.Backtester.calculateMA ops data (P : Int) (i : Int)
      = some (ops.div (((data.drop (i + 1 - P)).take P).reverse.foldl ops.add 0) (P : ℚ)) := by
  have h : ¬ ((i : Int) < (P : Int) - 1) := by omega
  simp only [Ops.Backtester.calculateMA, h, if_false, Int.toNat_ofNat]
  rw [ops_sumLoop_eq ops data i hi P hlo]
  simp

/-- C2 is refuted for binary64: on the window `0.1, 0.2, 0.3` (the doubles
nearest to these decimals) with period 3 at index 2, `calculateMA` adds
`0.3 + 0.2 + 0.1` and returns `0.19999999999999998`; the same three values
added in the order `0.1 + 0.2 + 0.3`, which is what `calculateMA` does on the
reversed vector, give `0.20000000000000004`. -/
theorem C2_summation_order_counterexample :
    Ops.Backtester.calculateMA binary64Ops
        [roundBinary64 (1 / 10), roundBinary64 (2 / 10), roundBinary64 (3 / 10)] 3 2
      = some (7205759403792793 / 36028797018963968)
    ∧ binary64Ops.div
        (List.foldl binary64Ops.add 0
          [roundBinary64 (1 / 10), roundBinary64 (2 / 10), roundBinary64 (3 / 10)]) 3
      = 7205759403792795 / 36028797018963968
    ∧ Ops.Backtester.calculateMA binary64Ops
        [roundBinary64 (3 / 10), roundBinary64 (2 / 10), roundBinary64 (1 / 10)] 3 2
      = some (7205759403792795 / 36028797018963968)
    ∧ (7205759403792793 / 36028797018963968 : ℚ) ≠ 7205759403792795 / 36028797018963968 := by
  refine ⟨by decide!, by decide!, by decide!, by decide!⟩

/-- C2, amended: for every price sequence, period `P >= 1` and index
`P - 1 <= i < len`, and for every arithmetic of `double` (binary64 rounding
included), each of the `P` reads `data[i - k]` is inside the vector and both
copies of `calculateMA` return the quotient by `P` of the sum accumulated from
`0` in the order `data[i], data[i-1], ..., data[i-P+1]`; in exact arithmetic
that quotient is the arithmetic mean of the window. -/
theorem C2_window_sum_in_code_order (ops : DoubleOps) (data : List ℚ) (P i : Nat)
    (hP : 1 ≤ P) (hlo : P - 1 ≤ i) (hi : i < data.length) :
    ((data.drop (i + 1 - P)).take P).length = P
      ∧ (∀ k : Nat, k < P → ∃ x, vecAt data ((i : Int) - (k : Int)) = some x
            ∧ ((data.drop (i + 1 - P)).take P).reverse[k]? = some x)
      ∧ Ops.Backtester.calculateMA ops data (P : Int) (i : Int)
          = some (ops.div
              (List.foldl ops.add 0 ((data.drop (i + 1 - P)).take P).reverse) (P : ℚ))
      ∧ Ops.MovingAverageStrategy.calculateMA ops data (P : Int) (i : Int)
          = some (ops.div
              (List.foldl ops.add 0 ((data.drop (i + 1 - P)).take P).reverse) (P : ℚ))
      ∧ Ops.Backtester.calculateMA exactOps data (P : Int) (i : Int)
          = some (((data.drop (i + 1 - P)).take P).sum / (P : ℚ))
      ∧ Ops.MovingAverageStrategy.calculateMA exactOps data (P : Int) (i : Int)
          = some (((data.drop (i + 1 - P)).take P).sum / (P : ℚ)) := by
  have hle : P ≤ i + 1 := by omega
  have hlen : ((data.drop (i + 1 - P)).take P).length = P := by simp; omega
  refine ⟨hlen, ?_, ops_calculateMA_window ops data P i hle hi, ?_, ?_, ?_⟩
  · intro k hk
    refine ⟨data[i - k], ?_, ?_⟩
    · rw [vecAt_sub data i k (by omega), List.getElem?_eq_getElem]
    · have hidx : ((data.drop (i + 1 - P)).take P).length - 1 - k = P - 1 - k := by omega
      rw [List.getElem?_reverse (by omega), hidx, List.getElem?_take_of_lt (by omega),
        List.getElem?_drop, show i + 1 - P + (P - 1 - k) = i - k by omega,
        List.getElem?_eq_getElem]
  · rw [ops_strategy_calculateMA_eq]; exact ops_calculateMA_window ops data P i hle hi
  · rw [ops_calculateMA_exact]; exact calculateMA_window data P i hle hi
  · rw [ops_strategy_calculateMA_eq, ops_calculateMA_exact]
    exact calculateMA_window data P i hle hi

/-- C2, amended, in binary64 at `[1, 2, 3, 4, 5]` with period 3 and index 3:
the sum `4 + 3 + 2` divided by 3. -/
theorem C2_window_sum_in_code_order_witness :
    (1 ≤ 3 ∧ 3 - 1 ≤ 3 ∧ 3 < ([1, 2, 3, 4, 5] : List ℚ).length)
      ∧ Ops.Backtester.calculateMA binary64Ops [1, 2, 3, 4, 5] 3 3 = some 3
      ∧ Ops.MovingAverageStrategy.calculateMA binary64Ops [1, 2, 3, 4, 5] 3 3 = some 3 :=
  ⟨by decide,
   (C2_window_sum_in_code_order binary64Ops [1, 2, 3, 4, 5] 3 3 (by decide) (by decide)
      (by decide)).2.2.1.trans (by decide!),
   (C2_window_sum_in_code_order binary64Ops [1, 2, 3, 4, 5] 3 3 (by decide) (by decide)
      (by decide)).2.2.2.1.trans (by decide!)⟩

/-! ## The constant series in binary64 -/

